import Mathlib

/-!
Shallow embedding of the OCW Assistant orchestration core
(sidecar services: approval engine, action executor, orchestrator
reader/planner/judge), and proofs of the behavioural claims about it.

Conventions of the embedding:
* JSON payloads (`Record<string, unknown>` in the source) are association
  lists of `Json` values; field access models JavaScript property lookup
  (absent key = `undefined`, modelled as `none`).
* ISO-8601 timestamps stored on rows are modelled as integer milliseconds
  since the epoch ( `new Date(x).getTime()` ), so `Date.now() - t` is plain
  integer subtraction.
* Database rows live in a `LedgerState`: the `approval_actions` table as a
  list of records and the audit log as an append-only list.  Each service
  function threads the state explicitly and returns `Except` for thrown
  errors ( `throw new Error(msg)` becomes `.error msg` ).
-/

namespace OCW

/-- Runtime JSON-ish values (`unknown` fields of payloads and args). -/
inductive Json where
  | str : String → Json
  | num : Int → Json
  | jsBool : Bool → Json
  | arr : List Json → Json
  | obj : List (String × Json) → Json
  | null : Json

/-- JavaScript property lookup on an object literal: first binding wins,
absent key is `undefined` (`none`). -/
def lookupField (p : List (String × Json)) (k : String) : Option Json :=
  (p.find? (fun kv => kv.1 = k)).map (fun kv => kv.2)

/-- Model of `Array.isArray(v) && v.every(x => typeof x === 'string')`. -/
def isStringArrayJson : Json → Bool
  | .arr xs => xs.all (fun x => match x with | .str _ => true | _ => false)
  | _ => false

/-- The strings of a JSON array: `v.filter(x => typeof x === 'string')`
(empty when the value is not an array). -/
def stringsOfJson : Json → List String
  | .arr xs => xs.filterMap (fun x => match x with | .str s => some s | _ => none)
  | _ => []

/-- Model of `s.trim()` (ASCII whitespace), implemented over the char list so that it
evaluates by kernel reduction. -/
def strTrim (s : String) : String :=
  String.mk (((s.data.dropWhile Char.isWhitespace).reverse.dropWhile
    Char.isWhitespace).reverse)

/-- Model of `typeof v === 'string' ? v.trim() : ''` on a payload field. -/
def payloadStrTrim (p : List (String × Json)) (k : String) : String :=
  match lookupField p k with
  | some (.str s) => strTrim s
  | _ => ""

/-- The raw string value of a payload field (`undefined`/non-string → `none`). -/
def payloadStr (p : List (String × Json)) (k : String) : Option String :=
  match lookupField p k with
  | some (.str s) => some s
  | _ => none

/-- Model of `xs.join(',')`. -/
def joinComma : List String → String
  | [] => ""
  | [x] => x
  | x :: xs => x ++ "," ++ joinComma xs

/-- Worker of `dedupFirst`, carrying the set of already-seen elements. -/
def dedupFirstAux : List String → List String → List String
  | [], _ => []
  | x :: rest, seen =>
    if x ∈ seen then dedupFirstAux rest seen else x :: dedupFirstAux rest (x :: seen)

/-- Model of `[...new Set(xs)]`: de-duplicate keeping the first occurrence of each
element, in order. -/
def dedupFirst (xs : List String) : List String :=
  dedupFirstAux xs []

/-- JavaScript truthiness of an optional string (`undefined` and `''` are falsy). -/
def jsTruthy : Option String → Bool
  | some s => s ≠ ""
  | none => false

/-- Model of `a || b` on optional strings. -/
def jsOrElse (a b : Option String) : Option String :=
  if jsTruthy a then a else b

/-- Model of `a ?? b` (nullish coalescing) on optional strings. -/
def nullish (a b : Option String) : Option String :=
  match a with
  | some x => some x
  | none => b

/-! ## Approval ledger data model (`types.ts`, `db/schema.ts`) -/

/-- Model of `ApprovalStatus = 'prepared' | 'approved' | 'executed' | 'failed' | 'cancelled'`. -/
inductive ApprovalStatus where
  | prepared
  | approved
  | executed
  | failed
  | cancelled
deriving DecidableEq, Repr

/-- The stored string of a status (used in error messages and audit rows). -/
def statusText : ApprovalStatus → String
  | .prepared => "prepared"
  | .approved => "approved"
  | .executed => "executed"
  | .failed => "failed"
  | .cancelled => "cancelled"

/-- Model of `const TERMINAL: ApprovalStatus[] = ['executed', 'failed', 'cancelled']`. -/
def TERMINAL : List ApprovalStatus := [.executed, .failed, .cancelled]

/-- One `approval_actions` row (`ApprovalAction` in `types.ts`); timestamps in ms. -/
structure ApprovalAction where
  id : String
  actionType : String
  targetType : String
  targetRef : Option String
  payload : List (String × Json)
  status : ApprovalStatus
  requestedBy : String
  approvedBy : Option String
  errorDetails : Option String
  createdAt : Int
  updatedAt : Int

/-- One `audit_logs` row as written by `writeAuditLog` (id/timestamp/details
omitted: no claim mentions them). -/
structure AuditEntry where
  actionType : String
  targetType : Option String
  targetRef : Option String
  status : String
  errorDetails : Option String
deriving DecidableEq, Repr

/-- The shared mutable rows the approval services read and write. -/
structure LedgerState where
  actions : List ApprovalAction
  audit : List AuditEntry

def appendAudit (s : LedgerState) (e : AuditEntry) : LedgerState :=
  { s with audit := s.audit ++ [e] }

/-! ## Approval engine (`services/approvalEngine.ts`) -/

/-- Model of `getAction`: select the row with the given primary id. -/
def getAction (s : LedgerState) (actionId : String) : Option ApprovalAction :=
  s.actions.find? (fun a => a.id = actionId)

/-- SQL `UPDATE approval_actions SET ... WHERE id = actionId`. -/
def setAction (s : LedgerState) (actionId : String) (a : ApprovalAction) : LedgerState :=
  { s with actions := s.actions.map (fun x => if x.id = actionId then a else x) }

/-- Model of `prepareAction`: insert a fresh `prepared` row and audit it.
The generated id is passed in (the source draws it from a random id helper). -/
def prepareAction (s : LedgerState) (newId actionType targetType : String)
    (targetRef : Option String) (payload : List (String × Json))
    (requestedBy : String) (nowMs : Int) : LedgerState × ApprovalAction :=
  let record : ApprovalAction :=
    { id := newId
      actionType := actionType
      targetType := targetType
      targetRef := targetRef
      payload := payload
      status := .prepared
      requestedBy := requestedBy
      approvedBy := none
      errorDetails := none
      createdAt := nowMs
      updatedAt := nowMs }
  let s1 := { s with actions := s.actions ++ [record] }
  let s2 := appendAudit s1
    { actionType := "approval_prepared"
      targetType := some targetType
      targetRef := some newId
      status := "prepared"
      errorDetails := none }
  (s2, record)

/-- Model of `transitionAction`: the approval state machine.
Rejections (`throw new Error`) leave the rows untouched; a successful
transition updates the row, stamps `updatedAt`, and audits `{from, to}`. -/
def transitionAction (s : LedgerState) (actionId : String)
    (nextStatus : ApprovalStatus) (approvedBy errorDetails : Option String)
    (nowMs : Int) : LedgerState × Except String ApprovalAction :=
  match getAction s actionId with
  | none => (s, .error "action_not_found")
  | some current =>
    if current.status ∈ TERMINAL then
      (s, .error "action_terminal")
    else
      if (current.status = .prepared ∧
            nextStatus ∈ [ApprovalStatus.approved, .cancelled, .failed]) ∨
         (current.status = .approved ∧
            nextStatus ∈ [ApprovalStatus.executed, .failed, .cancelled]) then
        let updated : ApprovalAction :=
          { current with
            status := nextStatus
            approvedBy := nullish approvedBy current.approvedBy
            errorDetails := errorDetails
            updatedAt := nowMs }
        let s1 := setAction s actionId updated
        let s2 := appendAudit s1
          { actionType := "approval_transition"
            targetType := some updated.targetType
            targetRef := some updated.id
            status := statusText nextStatus
            errorDetails := errorDetails }
        (s2, .ok updated)
      else
        (s, .error ("invalid_transition:" ++ statusText current.status ++ "->" ++
          statusText nextStatus))

/-- Model of `reaffirmAction`: only from `approved`; re-stamps `updatedAt` and the
approver without changing the status. -/
def reaffirmAction (s : LedgerState) (actionId : String)
    (approvedBy : Option String) (nowMs : Int) :
    LedgerState × Except String ApprovalAction :=
  match getAction s actionId with
  | none => (s, .error "action_not_found")
  | some current =>
    if current.status ≠ .approved then
      (s, .error "action_not_approved")
    else
      let updated : ApprovalAction :=
        { current with
          approvedBy := nullish approvedBy current.approvedBy
          updatedAt := nowMs }
      let s1 := setAction s actionId updated
      let s2 := appendAudit s1
        { actionType := "approval_reaffirmed"
          targetType := some updated.targetType
          targetRef := some updated.id
          status := statusText updated.status
          errorDetails := none }
      (s2, .ok updated)

/-! ## Claim C1: the transition operation accepts exactly the allowed edges -/

/-- The allowed set of edges named by the specification:
prepared→approved | cancelled | failed, approved→executed | failed | cancelled. -/
def allowedEdge : ApprovalStatus → ApprovalStatus → Bool
  | .prepared, .approved => true
  | .prepared, .cancelled => true
  | .prepared, .failed => true
  | .approved, .executed => true
  | .approved, .failed => true
  | .approved, .cancelled => true
  | _, _ => false

/-! ## Orchestration data model (`orchestration/types.ts`) -/

inductive RiskLevel where
  | low
  | medium
  | high
deriving DecidableEq, Repr

inductive Mode where
  | quick
  | deep
deriving DecidableEq, Repr

inductive Role where
  | system
  | user
  | assistant
deriving DecidableEq, Repr

structure ChatMessage where
  role : Role
  content : String
deriving DecidableEq, Repr

structure Attachment where
  id : Option String
  name : Option String
  mimeType : Option String
deriving DecidableEq, Repr

/-- Model of `ContextPack` with its `toolContext`/`constraints` sub-objects flattened. -/
structure ContextPack where
  intentGuess : String
  conversationSummary : String
  enabledTools : List String
  attachments : List Attachment
  mode : Mode
  channel : String
  requiresLocalFirst : Bool
  userPrefs : List (String × Json)
  latestUserMessage : String

/-- Args of the read-only calendar tools. -/
structure CalendarArgs where
  mode : String
  anchorDate : Option String
deriving DecidableEq, Repr

/-- Model of `ToolCall`: a discriminated union over the six tool names.  The
`sideEffect` flag is fixed per tool kind by the source type, so it is the
derived function `ToolCall.sideEffect` rather than a stored field.
`email.send`, `calendar.event.create` and `delete.resource` carry
loosely-typed args (`Record<string, unknown>`). -/
inductive ToolCall where
  | calendarSummary (id : String) (args : CalendarArgs)
  | calendarEvents (id : String) (args : CalendarArgs)
  | emailDraftGenerate (id : String) (toAddrs : List String) (prompt : String)
      (tone : Option String) (requestedBy : Option String)
  | emailSend (id : String) (args : List (String × Json))
  | calendarEventCreate (id : String) (args : List (String × Json))
  | deleteResource (id : String) (args : List (String × Json))

def ToolCall.tool : ToolCall → String
  | .calendarSummary _ _ => "calendar.summary"
  | .calendarEvents _ _ => "calendar.events"
  | .emailDraftGenerate _ _ _ _ _ => "email.draft.generate"
  | .emailSend _ _ => "email.send"
  | .calendarEventCreate _ _ => "calendar.event.create"
  | .deleteResource _ _ => "delete.resource"

def ToolCall.sideEffect : ToolCall → Bool
  | .calendarSummary _ _ => false
  | .calendarEvents _ _ => false
  | .emailDraftGenerate _ _ _ _ _ => true
  | .emailSend _ _ => true
  | .calendarEventCreate _ _ => true
  | .deleteResource _ _ => true

structure ExecutionPlan where
  intent : String
  steps : List String
  toolCalls : List ToolCall
  artifacts : List String
  riskLevel : RiskLevel

inductive JudgeStatus where
  | proceed
  | needsClarification
  | requiresApproval
  | blocked
deriving DecidableEq, Repr

structure JudgeDecision where
  status : JudgeStatus
  requiredFields : List String
  policyNotes : List String
  requiresApproval : Bool
deriving DecidableEq, Repr

structure ToolExecutionResult where
  toolCallId : String
  tool : String
  ok : Bool
  data : Option Json
  error : Option String

/-! ## Policy judge (`orchestration/engine.ts`: `judgePlan`, `postToolJudge`) -/

def emailSendNote : String := "Email sending requires explicit approval."
def calendarCreateNote : String := "Calendar event creation requires explicit approval."
def deleteNote : String := "Deletion requires explicit confirmation and approval."
def draftRecipientNote : String := "Need at least one email recipient to generate a draft."

/-- The `email.send` checks of `judgePlan`: recipients via
`Array.isArray(args.to) ? args.to.filter(string) : []`, subject and body via
`typeof v === 'string' ? v.trim() : ''`; each missing one pushes its field. -/
def emailSendMissing (args : List (String × Json)) : List String :=
  let toAddrs := match lookupField args "to" with
    | some v => stringsOfJson v
    | none => []
  (if toAddrs.length = 0 then ["recipient"] else []) ++
  (if payloadStrTrim args "subject" = "" then ["subject"] else []) ++
  (if payloadStrTrim args "body" = "" then ["body"] else [])

/-- The `calendar.event.create` checks of `judgePlan`. -/
def calendarCreateMissing (args : List (String × Json)) : List String :=
  (if payloadStrTrim args "eventTitle" = "" then ["eventTitle"] else []) ++
  (if payloadStrTrim args "startDate" = "" then ["startDate"] else []) ++
  (if payloadStrTrim args "startTime" = "" then ["startTime"] else []) ++
  (if payloadStrTrim args "endTime" = "" then ["endTime"] else [])

/-- The per-tool-call loop of `judgePlan`, accumulating required fields and
policy notes; `delete.resource` returns the blocked decision immediately
(`.inl`), otherwise the accumulators are handed back (`.inr`). -/
def judgePlanAux : List ToolCall → List String → List String →
    JudgeDecision ⊕ (List String × List String)
  | [], rf, pn => .inr (rf, pn)
  | tc :: rest, rf, pn =>
    match tc with
    | .emailSend _ args =>
        judgePlanAux rest (rf ++ emailSendMissing args) (pn ++ [emailSendNote])
    | .calendarEventCreate _ args =>
        judgePlanAux rest (rf ++ calendarCreateMissing args) (pn ++ [calendarCreateNote])
    | .deleteResource _ _ =>
        .inl { status := .blocked
               requiredFields := ["confirmDeleteTarget"]
               policyNotes := pn ++ [deleteNote]
               requiresApproval := true }
    | .emailDraftGenerate _ toAddrs _ _ _ =>
        if toAddrs.length = 0 then
          judgePlanAux rest (rf ++ ["recipient"]) (pn ++ [draftRecipientNote])
        else judgePlanAux rest rf pn
    | _ => judgePlanAux rest rf pn

/-- The tool-name list the `requires_approval` branch of `judgePlan` tests
(note: the name list, not the `sideEffect` flag). -/
def APPROVAL_TOOLS : List String := ["email.send", "calendar.event.create", "delete.resource"]

/-- Model of `judgePlan(context, plan)`: the pre-tool policy decision.  The context
parameter is unused in the source (`void context`). -/
def judgePlan (_context : ContextPack) (plan : ExecutionPlan) : JudgeDecision :=
  match judgePlanAux plan.toolCalls [] [] with
  | .inl d => d
  | .inr (rf, pn) =>
    if rf.length > 0 then
      { status := .needsClarification
        requiredFields := dedupFirst rf
        policyNotes := pn
        requiresApproval := plan.toolCalls.any ToolCall.sideEffect }
    else if plan.toolCalls.any (fun t => t.tool ∈ APPROVAL_TOOLS) then
      { status := .requiresApproval
        requiredFields := []
        policyNotes := if pn.length > 0 then pn else ["External action requires approval."]
        requiresApproval := true }
    else
      { status := .proceed
        requiredFields := []
        policyNotes := pn
        requiresApproval := false }

/-- The required-field names a single tool call contributes in `judgePlan`
(the summary used to state the claims about the merged decision). -/
def toolMissing : ToolCall → List String
  | .emailSend _ args => emailSendMissing args
  | .calendarEventCreate _ args => calendarCreateMissing args
  | .emailDraftGenerate _ toAddrs _ _ _ => if toAddrs.length = 0 then ["recipient"] else []
  | _ => []

/-- The policy notes a single tool call contributes in `judgePlan` before any
`delete.resource` short-circuit. -/
def toolNotes : ToolCall → List String
  | .emailSend _ _ => [emailSendNote]
  | .calendarEventCreate _ _ => [calendarCreateNote]
  | .emailDraftGenerate _ toAddrs _ _ _ => if toAddrs.length = 0 then [draftRecipientNote] else []
  | _ => []

/-- Model of `failed.error || 'unknown_error'`. -/
def jsOrUnknownError : Option String → String
  | some s => if s = "" then "unknown_error" else s
  | none => "unknown_error"

/-- Model of `postToolJudge(initial, toolResults)`: escalates a `proceed` decision to
`blocked` when some tool execution failed; otherwise returns the pre-tool
decision unchanged. -/
def postToolJudge (initial : JudgeDecision) (toolResults : List ToolExecutionResult) :
    JudgeDecision :=
  if initial.status ≠ .proceed then initial
  else
    match toolResults.find? (fun r => !r.ok) with
    | none => initial
    | some failed =>
      { status := .blocked
        requiredFields := []
        policyNotes := ["Tool execution failed: " ++ failed.tool ++ " (" ++
          jsOrUnknownError failed.error ++ ")"]
        requiresApproval := false }

/-! ## Execution safety gate (`services/actionExecutor.ts`) -/

def STALE_LIMIT_MS : Int := 7 * 24 * 60 * 60 * 1000

/-- Model of `/^\d{4}-\d{2}-\d{2}$/.test s`. -/
def matchesDateRx (s : String) : Bool :=
  match s.toList with
  | [y1, y2, y3, y4, h1, m1, m2, h2, d1, d2] =>
    y1.isDigit && y2.isDigit && y3.isDigit && y4.isDigit && h1 = '-' &&
    m1.isDigit && m2.isDigit && h2 = '-' && d1.isDigit && d2.isDigit
  | _ => false

/-- Model of `/^\d{1,2}:\d{2}$/.test s`. -/
def matchesTimeRx (s : String) : Bool :=
  match s.toList with
  | [a, c, m1, m2] => a.isDigit && c = ':' && m1.isDigit && m2.isDigit
  | [a, b, c, m1, m2] => a.isDigit && b.isDigit && c = ':' && m1.isDigit && m2.isDigit
  | _ => false

/-- Model of `isStringArray(payload.to) && payload.to.length > 0`. -/
def emailToPresent (payload : List (String × Json)) : Bool :=
  match lookupField payload "to" with
  | some (.arr xs) =>
    (xs.all fun x => match x with | .str _ => true | _ => false) && xs.length ≠ 0
  | _ => false

/-- Model of `typeof payload.k === 'string' && rx.test(payload.k)` (raw, untrimmed). -/
def payloadMatchesRx (payload : List (String × Json)) (k : String)
    (rx : String → Bool) : Bool :=
  match lookupField payload k with
  | some (.str s) => rx s
  | _ => false

/-- The tool-specific payload completeness checks of
`validateApprovedActionExecution`, issue codes in push order. -/
def payloadIssues (actionType : String) (payload : List (String × Json)) : List String :=
  (if actionType = "email.send" then
    (if emailToPresent payload then [] else ["email_to_missing"]) ++
    (if payloadStrTrim payload "subject" ≠ "" then [] else ["email_subject_missing"]) ++
    (if payloadStrTrim payload "body" ≠ "" then [] else ["email_body_missing"])
  else []) ++
  (if actionType = "calendar.event.create" then
    (if payloadStrTrim payload "eventTitle" ≠ "" then [] else ["event_title_missing"]) ++
    (if payloadMatchesRx payload "startDate" matchesDateRx then []
      else ["event_start_date_invalid"]) ++
    (if payloadMatchesRx payload "startTime" matchesTimeRx then []
      else ["event_start_time_invalid"]) ++
    (if payloadMatchesRx payload "endTime" matchesTimeRx then []
      else ["event_end_time_invalid"])
  else [])

/-- Model of `validateApprovedActionExecution`: staleness first, then the tool-specific
checks.  The `Number.isFinite(ageMs)` guard of the source is vacuous here:
timestamps are integers in this model, whereas an unparsable stored timestamp
would give `NaN` in JS and skip the staleness check. -/
def validateApprovedActionExecution (action : Option ApprovalAction) (nowMs : Int) :
    List String :=
  match action with
  | none => ["action_not_found"]
  | some a =>
    (if nowMs - a.updatedAt > STALE_LIMIT_MS then ["approval_stale_reapproval_required"]
     else []) ++
    payloadIssues a.actionType a.payload

/-! ## Execution collaborators (`calendarService.ts`, `emailDraftService`) -/

/-- Result of performing an approved side-effecting operation. -/
inductive ExecutionData where
  | localDraft (draftId : String)
  | eventCreated (title startAt endAt : String)
deriving DecidableEq, Repr

def digitVal (c : Char) : Nat := c.toNat - Char.toNat '0'

def isLeapYear (y : Nat) : Bool := (y % 4 = 0 && y % 100 ≠ 0) || y % 400 = 0

def daysInMonth (y m : Nat) : Nat :=
  if m = 1 ∨ m = 3 ∨ m = 5 ∨ m = 7 ∨ m = 8 ∨ m = 10 ∨ m = 12 then 31
  else if m = 4 ∨ m = 6 ∨ m = 9 ∨ m = 11 then 30
  else if m = 2 then (if isLeapYear y then 29 else 28)
  else 0

/-- Parse a calendar-valid `YYYY-MM-DD` (the date part of the ES date-time
string format; `new Date` rejects out-of-range components). -/
def parseIsoDate (s : String) : Option (Nat × Nat × Nat) :=
  match s.toList with
  | [y1, y2, y3, y4, c1, m1, m2, c2, d1, d2] =>
    if ([y1, y2, y3, y4, m1, m2, d1, d2].all Char.isDigit) ∧ c1 = '-' ∧ c2 = '-' then
      let y := ((digitVal y1 * 10 + digitVal y2) * 10 + digitVal y3) * 10 + digitVal y4
      let m := digitVal m1 * 10 + digitVal m2
      let d := digitVal d1 * 10 + digitVal d2
      if 1 ≤ m ∧ m ≤ 12 ∧ 1 ≤ d ∧ d ≤ daysInMonth y m then some (y, m, d) else none
    else none
  | _ => none

def nextDay (y m d : Nat) : Nat × Nat × Nat :=
  if d < daysInMonth y m then (y, m, d + 1)
  else if m < 12 then (y, m + 1, 1)
  else (y + 1, 1, 1)

def pad2 (n : Nat) : String := (if n < 10 then "0" else "") ++ toString n

/-- JS `<` on strings: code-unit lexicographic order (code-point order over
the char lists of the ASCII strings compared here), implemented structurally
so that it evaluates by kernel reduction (the core String order is
iterator-based and does not reduce). -/
def strLtB : List Char → List Char → Bool
  | [], [] => false
  | [], _ :: _ => true
  | _ :: _, [] => false
  | a :: as, b :: bs =>
    if a.toNat < b.toNat then true
    else if b.toNat < a.toNat then false
    else strLtB as bs

def strLt (a b : String) : Bool := strLtB a.data b.data

def pad4 (n : Nat) : String :=
  (if n < 10 then "000" else if n < 100 then "00" else if n < 1000 then "0" else "") ++
  toString n

/-- Model of `combineDateTimeUtc` (calendarService): builds `date + 'T' + time(+':00') + 'Z'`,
parses it with `new Date` (throwing `invalid_datetime` on an invalid date) and
returns `toISOString()`.  The ES date-time format accepts a two-digit
`HH:MM` with hour ≤ 23 and minutes ≤ 59 — plus the special `24:00`, which
normalizes to midnight of the next day — on a calendar-valid date; the
single-digit-hour strings the gate can let through are not in the accepted
format and give an invalid date. -/
def combineDateTimeUtc (date time : String) : Except String String :=
  match parseIsoDate date, time.toList with
  | some (y, m, d), [h1, h2, c, mm1, mm2] =>
    if h1.isDigit ∧ h2.isDigit ∧ c = ':' ∧ mm1.isDigit ∧ mm2.isDigit then
      let hh := digitVal h1 * 10 + digitVal h2
      let mins := digitVal mm1 * 10 + digitVal mm2
      if hh ≤ 23 ∧ mins ≤ 59 then
        .ok (date ++ "T" ++ time ++ ":00.000Z")
      else if hh = 24 ∧ mins = 0 then
        match nextDay y m d with
        | (y2, m2, d2) =>
          .ok (pad4 y2 ++ "-" ++ pad2 m2 ++ "-" ++ pad2 d2 ++ "T00:00:00.000Z")
      else .error "invalid_datetime"
    else .error "invalid_datetime"
  | _, _ => .error "invalid_datetime"

/-- Model of `createLocalCalendarEventFromApprovedAction` (calendarService): the title
falls back to "Untitled Event", blank date/time fields throw, the combined
datetimes must be valid with the end strictly after the start, and on success
the local event is inserted and audited.  The bootstrap of the local
`calendars` row and the random event id are not observable through any claim
and are left out of the event model. -/
def createLocalCalendarEventFromApprovedAction (s : LedgerState) (_actionId : String)
    (payload : List (String × Json)) : LedgerState × Except String ExecutionData :=
  let title := if payloadStrTrim payload "eventTitle" ≠ "" then
    payloadStrTrim payload "eventTitle" else "Untitled Event"
  let startDate := payloadStrTrim payload "startDate"
  let startTime := payloadStrTrim payload "startTime"
  let endTime := payloadStrTrim payload "endTime"
  if startDate = "" ∨ startTime = "" ∨ endTime = "" then
    (s, .error "calendar_event_fields_missing")
  else
    match combineDateTimeUtc startDate startTime, combineDateTimeUtc startDate endTime with
    | .ok startAt, .ok endAt =>
      if strLt startAt endAt then
        (appendAudit s
          { actionType := "calendar_event_created_from_action"
            targetType := some "calendar_event"
            targetRef := none
            status := "executed"
            errorDetails := none },
         .ok (.eventCreated title startAt endAt))
      else (s, .error "calendar_event_end_before_start")
    | .error e, _ => (s, .error e)
    | _, .error e => (s, .error e)

/-- Modelled from the spec: `materializeApprovedSendActionAsLocalDraft` is
imported by the action executor from `emailDraftService` but that function is
not part of this source snapshot.  Per the external-interface contract
(`materializeApprovedSend(actionId, payload) -> {draft}`) and the
execution-gate description (after the checks pass, the gate performs the
side-effecting operation: materialize a local draft), it produces a local
draft for the approved action with no failure mode of its own; the
integration suite observes `{mode: 'safe_local_draft', draft: {id}}`. -/
def materializeApprovedSendActionAsLocalDraft (s : LedgerState) (actionId : String)
    (_payload : List (String × Json)) : LedgerState × Except String ExecutionData :=
  (s, .ok (.localDraft ("draft_for_" ++ actionId)))

/-- Model of `executeApprovedAction`: the execution safety gate plus the guarded
side-effecting operation and the final transition to `executed`. -/
def executeApprovedAction (s : LedgerState) (actionId : String)
    (approvedBy : Option String) (nowMs : Int) :
    LedgerState × Except String (ApprovalAction × ExecutionData) :=
  match getAction s actionId with
  | none => (s, .error "action_not_found")
  | some action =>
    if action.status ≠ .approved then (s, .error "action_not_approved")
    else
      let policyIssues := validateApprovedActionExecution (some action) nowMs
      if policyIssues.length > 0 then
        let s1 := appendAudit s
          { actionType := "action_execute_blocked"
            targetType := some action.targetType
            targetRef := some action.id
            status := "blocked"
            errorDetails := none }
        (s1, .error ("execution_policy_blocked:" ++ joinComma policyIssues))
      else
        let s2 := appendAudit s
          { actionType := "action_execute_begin"
            targetType := some action.targetType
            targetRef := some action.id
            status := "prepared"
            errorDetails := none }
        let step :=
          if action.actionType = "calendar.event.create" then
            createLocalCalendarEventFromApprovedAction s2 action.id action.payload
          else if action.actionType = "email.send" then
            materializeApprovedSendActionAsLocalDraft s2 action.id action.payload
          else (s2, .error ("unsupported_action_execution:" ++ action.actionType))
        match step with
        | (s3, .error e) => (s3, .error e)
        | (s3, .ok ed) =>
          match transitionAction s3 action.id .executed
              (jsOrElse approvedBy (jsOrElse action.approvedBy (some "local-user")))
              none nowMs with
          | (s4, .error e) => (s4, .error e)
          | (s4, .ok updated) =>
            let s5 := appendAudit s4
              { actionType := "action_execute_complete"
                targetType := some updated.targetType
                targetRef := some updated.id
                status := "executed"
                errorDetails := none }
            (s5, .ok (updated, ed))

/-- Outcome of the transition route. -/
inductive RouteOutcome where
  | transitioned (item : ApprovalAction)
  | executedAction (item : ApprovalAction) (execution : ExecutionData)

/-- The `/api/actions/:actionId/transition` handler (`routes/actions.ts`):
the request schema admits only approved/executed/failed/cancelled;
`executed` dispatches to `executeApprovedAction`, every other admitted
target goes to the state machine `transitionAction`. -/
def handleTransitionRoute (s : LedgerState) (actionId : String)
    (nextStatus : ApprovalStatus) (approvedBy errorDetails : Option String)
    (nowMs : Int) : LedgerState × Except String RouteOutcome :=
  if nextStatus = .prepared then (s, .error "invalid_request")
  else if nextStatus = .executed then
    match executeApprovedAction s actionId approvedBy nowMs with
    | (s1, .error e) => (s1, .error e)
    | (s1, .ok (item, ed)) => (s1, .ok (.executedAction item ed))
  else
    match transitionAction s actionId nextStatus approvedBy errorDetails nowMs with
    | (s1, .error e) => (s1, .error e)
    | (s1, .ok item) => (s1, .ok (.transitioned item))

/-- Condition under which the guarded execution step itself succeeds for an
approved action (the amendment to C5): an executable action type, and for
calendar creation the payload datetimes must combine into valid instants with
the end strictly after the start. -/
def executionStepSucceeds (a : ApprovalAction) : Prop :=
  a.actionType = "email.send" ∨
  (a.actionType = "calendar.event.create" ∧
    ∃ sAt eAt,
      combineDateTimeUtc (payloadStrTrim a.payload "startDate")
        (payloadStrTrim a.payload "startTime") = .ok sAt ∧
      combineDateTimeUtc (payloadStrTrim a.payload "startDate")
        (payloadStrTrim a.payload "endTime") = .ok eAt ∧
      strLt sAt eAt = true)

/-! ## Draft generation path (`emailDraftService`: `createDraftEmail`) -/

/-- The approval payload `createDraftEmail` prepares: `{ subject, to }` —
exactly the two fields, in this order; in particular no `body` field. -/
def draftEmailApprovalPayload (subject : String) (toAddrs : List String) :
    List (String × Json) :=
  [("subject", Json.str subject), ("to", Json.arr (toAddrs.map Json.str))]

/-- The `prepared` ApprovalAction `createDraftEmail` creates through
`prepareAction`: actionType 'email.send', targetType 'draft_email',
targetRef the draft id, payload `{ subject, to }`. -/
def createDraftEmailApproval (s : LedgerState) (newId draftId subject : String)
    (toAddrs : List String) (requestedBy : String) (nowMs : Int) :
    LedgerState × ApprovalAction :=
  prepareAction s newId "email.send" "draft_email" (some draftId)
    (draftEmailApprovalPayload subject toAddrs) requestedBy nowMs

/-! ## Context builder (Reader) and heuristic planner (`orchestration/engine.ts`)

The planner's deterministic pattern rules are regular expressions in the
source; here each one is translated into an explicit structurally-recursive
scanner over the char list with the same matching semantics (leftmost match,
greedy/lazy quantifiers, word boundaries, case-insensitivity), so that every
definition evaluates by kernel reduction. -/

structure OrchestratorInput where
  conversationId : Option String
  mode : Mode
  model : String
  messages : List ChatMessage
  tools : Option (List String)
  channel : Option String
  attachments : Option (List Attachment)
  userPrefs : Option (List (String × Json))

/-- ASCII lower-casing (JS `toLowerCase` on the ASCII texts involved). -/
def lowerL (l : List Char) : List Char := l.map Char.toLower

def strLower (s : String) : String := String.mk (lowerL s.data)

/-- Does the needle occur at the head of the hay? -/
def startsL : List Char → List Char → Bool
  | [], _ => true
  | _ :: _, [] => false
  | a :: as, b :: bs => a = b && startsL as bs

/-- Substring containment: `/lit/.test s` for a literal pattern. -/
def containsL (needle : List Char) : List Char → Bool
  | [] => needle.isEmpty
  | c :: rest => startsL needle (c :: rest) || containsL needle rest

def containsStr (needle s : String) : Bool := containsL needle.data s.data

/-- Model of `/a|b|c/.test s` for literal alternatives. -/
def containsAny (s : String) (needles : List String) : Bool :=
  needles.any (fun n => containsStr n s)

/-- Model of `replace(/\s+/g, ' ')`: collapse every whitespace run to a single space. -/
def collapseWsL : Bool → List Char → List Char
  | _, [] => []
  | prevWs, c :: rest =>
    if c.isWhitespace then
      if prevWs then collapseWsL true rest else ' ' :: collapseWsL true rest
    else c :: collapseWsL false rest

/-- Model of `latestUserMessage`: the most recent user message, else the last message,
trimmed (`|| ''` coincides with trimming). -/
def latestUserMessage (messages : List ChatMessage) : String :=
  match messages.reverse.find? (fun m => m.role = Role.user) with
  | some m => strTrim m.content
  | none =>
    match messages.getLast? with
    | some m => strTrim m.content
    | none => ""

def roleText : Role → String
  | .system => "system"
  | .user => "user"
  | .assistant => "assistant"

def joinNewline : List String → String
  | [] => ""
  | [x] => x
  | x :: xs => x ++ "\n" ++ joinNewline xs

/-- Model of `summarizeConversation`: last 6 messages, whitespace-collapsed, trimmed,
truncated to 140 chars each, joined by newlines, globally capped at 700. -/
def summarizeConversation (messages : List ChatMessage) : String :=
  let lines := (messages.drop (messages.length - 6)).map (fun m =>
    roleText m.role ++ ": " ++
      String.mk ((strTrim (String.mk (collapseWsL false m.content.data))).data.take 140))
  String.mk ((joinNewline lines).data.take 700)

/-- Model of `buildContextPack`: first matching keyword rule wins, defaulting to
general_chat. -/
def buildContextPack (input : OrchestratorInput) : ContextPack :=
  let latest := latestUserMessage input.messages
  let lc := strLower latest
  let intentGuess :=
    if containsAny lc ["calendar", "agenda", "schedule"] then "calendar_query"
    else if containsAny lc ["draft email", "compose email", "write email"] then
      "email_draft"
    else if containsStr "send email" lc then "email_send"
    else if containsAny lc ["create event", "schedule meeting"] then "calendar_create"
    else if containsAny lc ["delete", "remove", "cancel"] then "delete_action"
    else "general_chat"
  { intentGuess := intentGuess
    conversationSummary := summarizeConversation input.messages
    enabledTools := input.tools.getD []
    attachments := input.attachments.getD []
    mode := input.mode
    channel := input.channel.getD "in_app"
    requiresLocalFirst := true
    userPrefs := input.userPrefs.getD []
    latestUserMessage := latest }

def isWordChar (c : Char) : Bool := c.isAlphanum || c = '_'

/-- Model of `\b` immediately after a match ending in a word char. -/
def wordBoundaryAfter : List Char → Bool
  | [] => true
  | c :: _ => !isWordChar c

/-- Model of `20\d{2}-\d{2}-\d{2}` at the head: matched chars and remainder. -/
def dateMatchHere : List Char → Option (List Char × List Char)
  | '2' :: '0' :: y3 :: y4 :: '-' :: m1 :: m2 :: '-' :: d1 :: d2 :: rest =>
    if y3.isDigit && y4.isDigit && m1.isDigit && m2.isDigit &&
        d1.isDigit && d2.isDigit then
      some (['2', '0', y3, y4, '-', m1, m2, '-', d1, d2], rest)
    else none
  | _ => none

/-- First `\b(20\d{2}-\d{2}-\d{2})\b` match (`extractAnchorDate`, and the
`dateMatch` of `parseCalendarCreateArgs`). -/
def findDateL : Option Char → List Char → Option (List Char)
  | _, [] => none
  | prev, c :: rest =>
    (if (match prev with | none => true | some p => !isWordChar p) then
      match dateMatchHere (c :: rest) with
      | some (m, after) => if wordBoundaryAfter after then some m else none
      | none => none
    else none) <|> findDateL (some c) rest

def extractAnchorDate (text : String) : Option String :=
  (findDateL none text.data).map String.mk

def isLocalChar (c : Char) : Bool :=
  c.isAlphanum || c = '.' || c = '_' || c = '%' || c = '+' || c = '-'

def isDomainChar (c : Char) : Bool := c.isAlphanum || c = '.' || c = '-'

/-- Candidates for the `[A-Z0-9.-]+\.[A-Z]{2,}` suffix of the email pattern
inside a maximal domain-char run: one per dot that has a nonempty part before
it and at least two letters after it.  Greedy backtracking selects the
rightmost viable dot — the last candidate. -/
def domainCandAux (acc : List Char) : List Char → List (List Char × List Char)
  | [] => []
  | '.' :: rest =>
    let r := rest.takeWhile Char.isAlpha
    (if acc ≠ [] ∧ r.length ≥ 2 then [(acc ++ '.' :: r, rest.drop r.length)]
     else []) ++ domainCandAux (acc ++ ['.']) rest
  | c :: rest => domainCandAux (acc ++ [c]) rest

/-- One attempt of `/[A-Z0-9._%+-]+@[A-Z0-9.-]+\.[A-Z]{2,}/i` at the head:
the matched chars and the remainder after the match. -/
def emailMatchAt (l : List Char) : Option (List Char × List Char) :=
  let localRun := l.takeWhile isLocalChar
  let rest1 := l.drop localRun.length
  if localRun.isEmpty then none
  else
    match rest1 with
    | '@' :: rest2 =>
      let domRun := rest2.takeWhile isDomainChar
      let rest3 := rest2.drop domRun.length
      match (domainCandAux [] domRun).getLast? with
      | some (dom, extra) => some (localRun ++ '@' :: dom, extra ++ rest3)
      | none => none
    | _ => none

/-- Global scan: leftmost matches, resuming after each match.  The fuel is
the input length, enough since every step consumes at least one char. -/
def scanEmailsAux : Nat → List Char → List (List Char)
  | 0, _ => []
  | _ + 1, [] => []
  | fuel + 1, c :: rest =>
    match emailMatchAt (c :: rest) with
    | some (m, after) => m :: scanEmailsAux fuel after
    | none => scanEmailsAux fuel rest

/-- Model of `extractEmails`: all matches, lower-cased, de-duplicated. -/
def extractEmails (text : String) : List String :=
  dedupFirst ((scanEmailsAux text.data.length text.data).map
    (fun m => String.mk (lowerL m)))

/-- Case-insensitive literal prefix match (the `/i` flag); the pattern is
given in lowercase. -/
def matchCI : List Char → List Char → Option (List Char)
  | [], l => some l
  | _ :: _, [] => none
  | p :: ps, c :: cs => if p = c.toLower then matchCI ps cs else none

/-- The subject lookahead `(?=\s+\bbody\s*:|\n|$)`. -/
def subjectStop (l : List Char) : Bool :=
  match l with
  | [] => true
  | c :: _ =>
    c = '\n' ||
    (let ws := l.takeWhile Char.isWhitespace
     let rest := l.drop ws.length
     !ws.isEmpty &&
       (match matchCI "body".data rest with
        | some r2 =>
          (match r2.drop (r2.takeWhile Char.isWhitespace).length with
           | ':' :: _ => true
           | _ => false)
        | none => false))

/-- The lazy capture `([\s\S]*?)` bounded by `subjectStop`. -/
def lazyCaptureSubject : List Char → List Char
  | [] => []
  | c :: rest => if subjectStop (c :: rest) then [] else c :: lazyCaptureSubject rest

/-- Model of `/subject\s*:\s*([\s\S]*?)(?=\s+\bbody\s*:|\n|$)/i`. -/
def findSubjectCapture : List Char → Option (List Char)
  | [] => none
  | c :: rest =>
    (match matchCI "subject".data (c :: rest) with
     | some r1 =>
       match r1.drop (r1.takeWhile Char.isWhitespace).length with
       | ':' :: r3 =>
         some (lazyCaptureSubject (r3.drop (r3.takeWhile Char.isWhitespace).length))
       | _ => none
     | none => none) <|> findSubjectCapture rest

/-- Model of `/subject\s+"([^"]+)"/i` (and the single-quote variant). -/
def findSubjectQuoted (q : Char) : List Char → Option (List Char)
  | [] => none
  | c :: rest =>
    (match matchCI "subject".data (c :: rest) with
     | some r1 =>
       let ws := r1.takeWhile Char.isWhitespace
       if ws.isEmpty then none
       else
         match r1.drop ws.length with
         | c2 :: r3 =>
           if c2 = q then
             let content := r3.takeWhile (fun x => x ≠ q)
             match r3.drop content.length with
             | _ :: _ => if content.isEmpty then none else some content
             | [] => none
           else none
         | [] => none
     | none => none) <|> findSubjectQuoted q rest

/-- Model of `/\bbody\s*:\s*([\s\S]+)/i`; the greedy `\s*` backtracks by one char when
nothing follows the whitespace, making the capture the last whitespace char. -/
def findBodyLine : Option Char → List Char → Option (List Char)
  | _, [] => none
  | prev, c :: rest =>
    (if (match prev with | none => true | some p => !isWordChar p) then
      match matchCI "body".data (c :: rest) with
      | some r1 =>
        match r1.drop (r1.takeWhile Char.isWhitespace).length with
        | ':' :: r3 =>
          let ws := r3.takeWhile Char.isWhitespace
          match r3.drop ws.length with
          | c2 :: r4 => some (c2 :: r4)
          | [] =>
            match ws.getLast? with
            | some w => some [w]
            | none => none
        | _ => none
      | none => none
    else none) <|> findBodyLine (some c) rest

/-- All suffixes of the list that follow a newline char, in order. -/
def sufAfterNl : List Char → List (List Char)
  | [] => []
  | '\n' :: rest => rest :: sufAfterNl rest
  | _ :: rest => sufAfterNl rest

/-- The `\s*\n([\s\S]+)` tail after `body\s*:`: the greedy `\s*` backtracks to
the rightmost newline of the whitespace run whose capture is nonempty. -/
def bodySectionCapture (l : List Char) : Option (List Char) :=
  let ws := l.takeWhile Char.isWhitespace
  let after := l.drop ws.length
  ((sufAfterNl ws).reverse.map (fun suf => suf ++ after)).find?
    (fun cap => !cap.isEmpty)

/-- Model of `/(?:^|\n)body\s*:\s*\n([\s\S]+)/i`. -/
def findBodySection : Bool → List Char → Option (List Char)
  | _, [] => none
  | anchored, c :: rest =>
    (if anchored then
      match matchCI "body".data (c :: rest) with
      | some r1 =>
        match r1.drop (r1.takeWhile Char.isWhitespace).length with
        | ':' :: r3 => bodySectionCapture r3
        | _ => none
      | none => none
    else none) <|> findBodySection (c = '\n') rest

/-- Model of `parseEmailSendArgs`: emails, subject, body, with the subject-duplication
strip on the inline body. -/
def parseEmailSendArgs (text : String) : List (String × Json) :=
  let l := text.data
  let toAddrs := extractEmails text
  let subjectCap :=
    match findSubjectCapture l with
    | some c => some c
    | none =>
      match findSubjectQuoted '"' l with
      | some c => some c
      | none => findSubjectQuoted '\'' l
  let subject := strTrim (String.mk (subjectCap.getD []))
  let bodySection := findBodySection true l
  let bodyLine := findBodyLine none l
  let body :=
    match bodySection with
    | some cs => strTrim (String.mk cs)
    | none =>
      match bodyLine with
      | some cs =>
        let b := strTrim (String.mk cs)
        if subject ≠ "" ∧ startsL (strLower subject).data (strLower b).data then
          strTrim (String.mk (b.data.drop subject.data.length))
        else b
      | none => ""
  [("to", Json.arr (toAddrs.map Json.str)), ("subject", Json.str subject),
   ("body", Json.str body), ("requestedBy", Json.str "local-user"),
   ("source", Json.str "chat")]

/-- Model of `\d{1,2}:\d{2}\b` at the head (greedy hour first). -/
def laTimeHere (l : List Char) : Bool :=
  (match l with
   | d1 :: d2 :: ':' :: m1 :: m2 :: rest =>
     d1.isDigit && d2.isDigit && m1.isDigit && m2.isDigit && wordBoundaryAfter rest
   | _ => false) ||
  (match l with
   | d1 :: ':' :: m1 :: m2 :: rest =>
     d1.isDigit && m1.isDigit && m2.isDigit && wordBoundaryAfter rest
   | _ => false)

/-- The title lookahead
`(?=\s+\bon\s+20\d{2}-\d{2}-\d{2}\b|\s+\bat\s+\d{1,2}:\d{2}\b|\n|$)`. -/
def titleStop (l : List Char) : Bool :=
  match l with
  | [] => true
  | c :: _ =>
    c = '\n' ||
    (let ws := l.takeWhile Char.isWhitespace
     let rest := l.drop ws.length
     !ws.isEmpty &&
       ((match matchCI "on".data rest with
         | some r2 =>
           let ws2 := r2.takeWhile Char.isWhitespace
           !ws2.isEmpty &&
             (match dateMatchHere (r2.drop ws2.length) with
              | some (_, after) => wordBoundaryAfter after
              | none => false)
         | none => false) ||
        (match matchCI "at".data rest with
         | some r2 =>
           let ws2 := r2.takeWhile Char.isWhitespace
           !ws2.isEmpty && laTimeHere (r2.drop ws2.length)
         | none => false)))

def lazyCaptureTitle : List Char → List Char
  | [] => []
  | c :: rest => if titleStop (c :: rest) then [] else c :: lazyCaptureTitle rest

/-- First title pattern: `/title\s*:\s*([\s\S]*?)(?=...)/i`. -/
def findTitleCapture : List Char → Option (List Char)
  | [] => none
  | c :: rest =>
    (match matchCI "title".data (c :: rest) with
     | some r1 =>
       match r1.drop (r1.takeWhile Char.isWhitespace).length with
       | ':' :: r3 =>
         some (lazyCaptureTitle (r3.drop (r3.takeWhile Char.isWhitespace).length))
       | _ => none
     | none => none) <|> findTitleCapture rest

/-- Model of `\s+(?:on|at)\s` seen from just after the lazily captured title. -/
def altStopHere (l : List Char) : Bool :=
  let ws := l.takeWhile Char.isWhitespace
  let rest := l.drop ws.length
  !ws.isEmpty &&
    ((match matchCI "on".data rest with
      | some r2 => (match r2 with | c :: _ => c.isWhitespace | [] => false)
      | none => false) ||
     (match matchCI "at".data rest with
      | some r2 => (match r2 with | c :: _ => c.isWhitespace | [] => false)
      | none => false))

/-- The lazy `(.+?)` of the verb title pattern: at least one non-newline char,
stopping as soon as `\s+(?:on|at)\s` follows. -/
def lazyAltCapture : List Char → Option (List Char)
  | [] => none
  | c :: rest =>
    if c = '\n' then none
    else if altStopHere rest then some [c]
    else
      match lazyAltCapture rest with
      | some more => some (c :: more)
      | none => none

/-- Model of `(?:event|meeting)\s+(.+?)\s+(?:on|at)\s`. -/
def eventTail (r : List Char) : Option (List Char) :=
  (match matchCI "event".data r with
   | some r4 =>
     let ws := r4.takeWhile Char.isWhitespace
     if ws.isEmpty then none else lazyAltCapture (r4.drop ws.length)
   | none => none) <|>
  (match matchCI "meeting".data r with
   | some r4 =>
     let ws := r4.takeWhile Char.isWhitespace
     if ws.isEmpty then none else lazyAltCapture (r4.drop ws.length)
   | none => none)

/-- The optional article `(?:an?\s+)?`, trying `an`, `a`, then nothing. -/
def afterVerbWs (r2 : List Char) : Option (List Char) :=
  (match matchCI "an".data r2 with
   | some ra =>
     let wsa := ra.takeWhile Char.isWhitespace
     if wsa.isEmpty then none else eventTail (ra.drop wsa.length)
   | none => none) <|>
  (match matchCI "a".data r2 with
   | some rb =>
     let wsb := rb.takeWhile Char.isWhitespace
     if wsb.isEmpty then none else eventTail (rb.drop wsb.length)
   | none => none) <|>
  eventTail r2

/-- Second title pattern:
`/(?:create|schedule)\s+(?:an?\s+)?(?:event|meeting)\s+(.+?)\s+(?:on|at)\s/i`. -/
def findAltTitle : List Char → Option (List Char)
  | [] => none
  | c :: rest =>
    ((match matchCI "create".data (c :: rest) with
      | some r1 => some r1
      | none => matchCI "schedule".data (c :: rest)).bind (fun r1 =>
        let ws := r1.takeWhile Char.isWhitespace
        if ws.isEmpty then none else afterVerbWs (r1.drop ws.length))) <|>
      findAltTitle rest

/-- Model of `\b([01]?\d|2[0-3]):([0-5]\d)\b` at the head, alternatives in regex
order: (hour chars, minute chars, remainder). -/
def timeTokenHere (l : List Char) : Option (List Char × List Char × List Char) :=
  (match l with
   | c1 :: c2 :: ':' :: m1 :: m2 :: rest =>
     if (c1 = '0' ∨ c1 = '1') ∧ c2.isDigit ∧ ('0' ≤ m1 ∧ m1 ≤ '5') ∧ m2.isDigit ∧
         wordBoundaryAfter rest then
       some ([c1, c2], [m1, m2], rest)
     else none
   | _ => none) <|>
  (match l with
   | c1 :: ':' :: m1 :: m2 :: rest =>
     if c1.isDigit ∧ ('0' ≤ m1 ∧ m1 ≤ '5') ∧ m2.isDigit ∧ wordBoundaryAfter rest then
       some ([c1], [m1, m2], rest)
     else none
   | _ => none) <|>
  (match l with
   | c1 :: c2 :: ':' :: m1 :: m2 :: rest =>
     if c1 = '2' ∧ ('0' ≤ c2 ∧ c2 ≤ '3') ∧ ('0' ≤ m1 ∧ m1 ≤ '5') ∧ m2.isDigit ∧
         wordBoundaryAfter rest then
       some ([c1, c2], [m1, m2], rest)
     else none
   | _ => none)

/-- Model of `matchAll` over the time pattern: after each match the scan resumes past
it, with the final minute digit as the previous char for the next `\b`. -/
def scanTimesAux : Nat → Option Char → List Char → List (List Char × List Char)
  | 0, _, _ => []
  | _ + 1, _, [] => []
  | fuel + 1, prev, c :: rest =>
    if (match prev with | none => true | some p => !isWordChar p) then
      match timeTokenHere (c :: rest) with
      | some (h, m, after) =>
        (h, m) :: scanTimesAux fuel (some ((m.getLast?).getD c)) after
      | none => scanTimesAux fuel (some c) rest
    else scanTimesAux fuel (some c) rest

/-- Model of `parseCalendarCreateArgs`. -/
def parseCalendarCreateArgs (text : String) : List (String × Json) :=
  let l := text.data
  let titleCap :=
    match findTitleCapture l with
    | some cs => some cs
    | none => findAltTitle l
  let dateM := findDateL none l
  let times := scanTimesAux l.length none l
  let startTime :=
    match times.get? 0 with
    | some (h, m) => String.mk h ++ ":" ++ String.mk m
    | none => ""
  let endTime :=
    match times.get? 1 with
    | some (h, m) => String.mk h ++ ":" ++ String.mk m
    | none => ""
  [("eventTitle", Json.str (strTrim (String.mk (titleCap.getD [])))),
   ("startDate", Json.str (String.mk (dateM.getD []))),
   ("startTime", Json.str startTime),
   ("endTime", Json.str endTime),
   ("requestedBy", Json.str "local-user"),
   ("source", Json.str "chat")]

/-- Fresh random tool-call ids (`id('tool')`) are opaque and no claim depends
on them; modelled by a fixed placeholder. -/
def freshToolId : String := "tool"

/-- Model of `planFromContext`: the deterministic heuristic planner. -/
def planFromContext (context : ContextPack) : ExecutionPlan :=
  let text := strLower context.latestUserMessage
  let anchorDate := extractAnchorDate context.latestUserMessage
  if context.intentGuess = "calendar_query" then
    let mode := if containsAny text ["week", "this week", "weekly"] then "week"
      else "today"
    let wantsList :=
      containsAny text ["list", "show events", "what do i have", "agenda items"]
    { intent := if wantsList then "calendar_events" else "calendar_summary"
      steps := ["Load calendar data", "Compute summary/conflicts",
        "Compose user-facing answer"]
      toolCalls := [if wantsList then
          ToolCall.calendarEvents freshToolId ⟨mode, anchorDate⟩
        else ToolCall.calendarSummary freshToolId ⟨mode, anchorDate⟩]
      artifacts := ["calendar_summary"]
      riskLevel := .low }
  else if context.intentGuess = "email_draft" then
    { intent := "email_draft"
      steps := ["Extract recipients and drafting intent", "Generate draft email",
        "Return draft preview and approval action"]
      toolCalls := [ToolCall.emailDraftGenerate freshToolId
        (extractEmails context.latestUserMessage) context.latestUserMessage none
        (some "local-user")]
      artifacts := ["draft_email_preview", "approval_action"]
      riskLevel := .medium }
  else if context.intentGuess = "email_send" then
    { intent := context.intentGuess
      steps := ["Validate recipient/subject/body", "Require approval before send",
        "Execute only after approval"]
      toolCalls := [ToolCall.emailSend freshToolId
        (parseEmailSendArgs context.latestUserMessage)]
      artifacts := ["approval_action"]
      riskLevel := .high }
  else if context.intentGuess = "calendar_create" then
    { intent := context.intentGuess
      steps := ["Collect event fields", "Require approval",
        "Create calendar event after approval"]
      toolCalls := [ToolCall.calendarEventCreate freshToolId
        (parseCalendarCreateArgs context.latestUserMessage)]
      artifacts := ["approval_action"]
      riskLevel := .high }
  else if context.intentGuess = "delete_action" then
    { intent := context.intentGuess
      steps := ["Confirm target and scope", "Block until explicit confirmation"]
      toolCalls := [ToolCall.deleteResource freshToolId []]
      artifacts := ["clarification"]
      riskLevel := .high }
  else
    { intent := context.intentGuess
      steps := ["Answer using model response"]
      toolCalls := []
      artifacts := ["chat_response"]
      riskLevel := if context.mode = Mode.deep then .medium else .low }

/-! ## Concrete fixtures used by witnesses and counterexamples -/

/-- An executed (terminal) action used as a concrete fixture. -/
def sampleExecutedAction : ApprovalAction :=
  { id := "act1"
    actionType := "email.send"
    targetType := "email_send_request"
    targetRef := none
    payload := []
    status := .executed
    requestedBy := "local-user"
    approvedBy := some "local-user"
    errorDetails := none
    createdAt := 0
    updatedAt := 0 }

def sampleTerminalState : LedgerState :=
  { actions := [sampleExecutedAction], audit := [] }

/-- A context fixture for concrete evaluations. -/
def sampleContext : ContextPack :=
  { intentGuess := "general_chat"
    conversationSummary := ""
    enabledTools := []
    attachments := []
    mode := .quick
    channel := "in_app"
    requiresLocalFirst := true
    userPrefs := []
    latestUserMessage := "" }

/-- A plan holding an email.send call (body missing) followed by a delete. -/
def deleteMixedPlan : ExecutionPlan :=
  { intent := "delete_action"
    steps := []
    toolCalls :=
      [ToolCall.emailSend "t1"
        [("to", Json.arr [Json.str "a@example.com"]), ("subject", Json.str "Hi")],
       ToolCall.deleteResource "t2" []]
    artifacts := []
    riskLevel := .high }

/-- A plan whose only tool call is a side-effecting email.draft.generate with
one recipient (the heuristic planner produces exactly this for a draft
request naming an address). -/
def draftOnlyPlan : ExecutionPlan :=
  { intent := "email_draft"
    steps := []
    toolCalls := [ToolCall.emailDraftGenerate "t1" ["a@example.com"] "hello" none none]
    artifacts := []
    riskLevel := .medium }

/-- A single email.send call with a recipient but no subject and no body. -/
def emailMissingPlan : ExecutionPlan :=
  { intent := "email_send"
    steps := []
    toolCalls := [ToolCall.emailSend "t1" [("to", Json.arr [Json.str "a@example.com"])]]
    artifacts := []
    riskLevel := .high }

def sampleProceedDecision : JudgeDecision :=
  { status := .proceed, requiredFields := [], policyNotes := [], requiresApproval := false }

def sampleFailedResult : ToolExecutionResult :=
  { toolCallId := "t1"
    tool := "calendar.summary"
    ok := false
    data := none
    error := some "boom" }

/-- An approved, payload-complete email.send action last touched at time 0. -/
def staleApprovedEmailAction : ApprovalAction :=
  { id := "act2"
    actionType := "email.send"
    targetType := "email_send_request"
    targetRef := none
    payload := [("to", Json.arr [Json.str "a@example.com"]),
      ("subject", Json.str "Hi"), ("body", Json.str "Body text")]
    status := .approved
    requestedBy := "local-user"
    approvedBy := some "local-user"
    errorDetails := none
    createdAt := 0
    updatedAt := 0 }

def staleApprovedState : LedgerState :=
  { actions := [staleApprovedEmailAction], audit := [] }

/-- Eight days in milliseconds: a time at which an action stamped at 0 is stale. -/
def eightDaysMs : Int := 8 * 24 * 60 * 60 * 1000

/-- A calendar payload that passes the completeness regexes but has its end
time before its start time. -/
def staleCalendarPayload : List (String × Json) :=
  [("eventTitle", Json.str "Sync"), ("startDate", Json.str "2026-03-05"),
   ("startTime", Json.str "10:00"), ("endTime", Json.str "09:00")]

def staleApprovedCalendarAction : ApprovalAction :=
  { id := "act3"
    actionType := "calendar.event.create"
    targetType := "calendar_event_request"
    targetRef := none
    payload := staleCalendarPayload
    status := .approved
    requestedBy := "local-user"
    approvedBy := some "local-user"
    errorDetails := none
    createdAt := 0
    updatedAt := 0 }

def staleCalendarState : LedgerState :=
  { actions := [staleApprovedCalendarAction], audit := [] }

/-- A prepared (not yet approved) email.send action. -/
def preparedEmailAction : ApprovalAction :=
  { id := "act4"
    actionType := "email.send"
    targetType := "email_send_request"
    targetRef := none
    payload := [("to", Json.arr [Json.str "a@example.com"]),
      ("subject", Json.str "Hi"), ("body", Json.str "Body text")]
    status := .prepared
    requestedBy := "local-user"
    approvedBy := none
    errorDetails := none
    createdAt := 0
    updatedAt := 0 }

def preparedState : LedgerState :=
  { actions := [preparedEmailAction], audit := [] }

/-- The concrete scenario input of C8: a single user message in quick mode. -/
def scenarioInput : OrchestratorInput :=
  { conversationId := none
    mode := .quick
    model := "llama3:8b"
    messages := [⟨Role.user,
      "Send email to alice@example.com subject: Launch update body: Please review."⟩]
    tools := none
    channel := none
    attachments := none
    userPrefs := none }

lemma allowedEdge_iff (st next : ApprovalStatus) :
    ((st = .prepared ∧ next ∈ [ApprovalStatus.approved, .cancelled, .failed]) ∨
     (st = .approved ∧ next ∈ [ApprovalStatus.executed, .failed, .cancelled])) ↔
    allowedEdge st next = true := by
  cases st <;> cases next <;> simp [allowedEdge]

lemma terminal_no_allowedEdge (st next : ApprovalStatus) (h : st ∈ TERMINAL) :
    allowedEdge st next = false := by
  cases st <;> cases next <;> simp_all [TERMINAL, allowedEdge]

/-- C1: `transitionAction` succeeds exactly when the requested edge lies in the
allowed set prepared→approved|cancelled|failed, approved→executed|failed|cancelled.
It rejects an unknown id with `action_not_found`; rejects every request whose
current status is terminal (executed/failed/cancelled) with `action_terminal`,
so no transition ever succeeds from a terminal state; and rejects any other
edge with `invalid_transition:<from>-><to>`. -/
theorem c1_transition_exactly_allowed_edges
    (s : LedgerState) (actionId : String) (next : ApprovalStatus)
    (ab ed : Option String) (nowMs : Int) :
    (getAction s actionId = none →
      (transitionAction s actionId next ab ed nowMs).2 = .error "action_not_found") ∧
    (∀ a, getAction s actionId = some a → a.status ∈ TERMINAL →
      (transitionAction s actionId next ab ed nowMs).2 = .error "action_terminal") ∧
    (∀ a, getAction s actionId = some a → a.status ∉ TERMINAL →
      allowedEdge a.status next = false →
      (transitionAction s actionId next ab ed nowMs).2 =
        .error ("invalid_transition:" ++ statusText a.status ++ "->" ++ statusText next)) ∧
    ((∃ a2, (transitionAction s actionId next ab ed nowMs).2 = .ok a2) ↔
      (∃ a, getAction s actionId = some a ∧ allowedEdge a.status next = true)) := by
  refine ⟨?_, ?_, ?_, ?_⟩
  · intro h
    simp [transitionAction, h]
  · intro a ha hterm
    simp [transitionAction, ha, hterm]
  · intro a ha hterm hedge
    have hcond : ¬ ((a.status = .prepared ∧
          next ∈ [ApprovalStatus.approved, .cancelled, .failed]) ∨
        (a.status = .approved ∧
          next ∈ [ApprovalStatus.executed, .failed, .cancelled])) := by
      intro hc
      have := (allowedEdge_iff a.status next).mp hc
      rw [hedge] at this
      exact Bool.false_ne_true this
    simp only [transitionAction, ha]
    rw [if_neg hterm, if_neg hcond]
  · constructor
    · rintro ⟨a2, ha2⟩
      cases hget : getAction s actionId with
      | none => simp [transitionAction, hget] at ha2
      | some a =>
        by_cases hterm : a.status ∈ TERMINAL
        · simp [transitionAction, hget, hterm] at ha2
        · by_cases hallow :
            (a.status = .prepared ∧ next ∈ [ApprovalStatus.approved, .cancelled, .failed]) ∨
            (a.status = .approved ∧ next ∈ [ApprovalStatus.executed, .failed, .cancelled])
          · exact ⟨a, rfl, (allowedEdge_iff a.status next).mp hallow⟩
          · simp only [transitionAction, hget] at ha2
            rw [if_neg hterm, if_neg hallow] at ha2
            simp at ha2
    · rintro ⟨a, hget, hallow⟩
      have hterm : a.status ∉ TERMINAL := by
        intro h
        rw [terminal_no_allowedEdge a.status next h] at hallow
        exact Bool.false_ne_true hallow
      have hcond := (allowedEdge_iff a.status next).mpr hallow
      refine Exists.intro
        { a with
          status := next
          approvedBy := nullish ab a.approvedBy
          errorDetails := ed
          updatedAt := nowMs } ?_
      simp only [transitionAction, hget]
      rw [if_neg hterm, if_pos hcond]

theorem c1_transition_exactly_allowed_edges_witness :
    getAction sampleTerminalState "act1" = some sampleExecutedAction ∧
    sampleExecutedAction.status ∈ TERMINAL ∧
    (transitionAction sampleTerminalState "act1" .approved none none 5).2 =
      .error "action_terminal" :=
  ⟨rfl, by decide,
    (c1_transition_exactly_allowed_edges sampleTerminalState "act1" .approved none none 5).2.1
      sampleExecutedAction rfl (by decide)⟩

/-! ## Judge lemmas and claims C2, C3, C4, C7 -/

lemma mem_dedupFirstAux : ∀ (xs seen : List String) (x : String),
    x ∈ dedupFirstAux xs seen ↔ (x ∈ xs ∧ x ∉ seen)
  | [], seen, x => by simp [dedupFirstAux]
  | y :: rest, seen, x => by
    by_cases hy : y ∈ seen
    · rw [dedupFirstAux, if_pos hy, mem_dedupFirstAux rest seen x]
      constructor
      · rintro ⟨h1, h2⟩
        exact ⟨List.mem_cons_of_mem y h1, h2⟩
      · rintro ⟨h1, h2⟩
        rcases List.mem_cons.mp h1 with rfl | h1
        · exact absurd hy h2
        · exact ⟨h1, h2⟩
    · rw [dedupFirstAux, if_neg hy]
      constructor
      · intro h
        rcases List.mem_cons.mp h with rfl | h
        · exact ⟨List.mem_cons_self x rest, hy⟩
        · have h3 := (mem_dedupFirstAux rest (y :: seen) x).mp h
          exact ⟨List.mem_cons_of_mem y h3.1,
            fun hx => h3.2 (List.mem_cons_of_mem y hx)⟩
      · rintro ⟨h1, h2⟩
        rcases List.mem_cons.mp h1 with rfl | h1
        · exact List.mem_cons_self x _
        · by_cases hxy : x = y
          · subst hxy
            exact List.mem_cons_self x _
          · refine List.mem_cons_of_mem y
              ((mem_dedupFirstAux rest (y :: seen) x).mpr ⟨h1, ?_⟩)
            intro hc
            rcases List.mem_cons.mp hc with rfl | hc
            · exact hxy rfl
            · exact h2 hc

lemma mem_dedupFirst (xs : List String) (x : String) :
    x ∈ dedupFirst xs ↔ x ∈ xs := by
  rw [dedupFirst, mem_dedupFirstAux]
  simp

lemma nodup_dedupFirstAux : ∀ (xs seen : List String), (dedupFirstAux xs seen).Nodup
  | [], seen => by simp [dedupFirstAux]
  | y :: rest, seen => by
    by_cases hy : y ∈ seen
    · rw [dedupFirstAux, if_pos hy]
      exact nodup_dedupFirstAux rest seen
    · rw [dedupFirstAux, if_neg hy]
      refine List.nodup_cons.mpr ⟨?_, nodup_dedupFirstAux rest (y :: seen)⟩
      intro hmem
      exact ((mem_dedupFirstAux rest (y :: seen) y).mp hmem).2 (List.mem_cons_self y seen)

lemma nodup_dedupFirst (xs : List String) : (dedupFirst xs).Nodup :=
  nodup_dedupFirstAux xs []

/-- Reaching a `delete.resource` call makes the per-tool-call loop return the
blocked decision, whatever was accumulated before it. -/
lemma judgePlanAux_delete : ∀ (l : List ToolCall) (rf pn : List String),
    (∃ tc ∈ l, tc.tool = "delete.resource") →
    ∃ pn2, judgePlanAux l rf pn = Sum.inl
      { status := .blocked
        requiredFields := ["confirmDeleteTarget"]
        policyNotes := pn2
        requiresApproval := true }
  | [], rf, pn, h => by simp at h
  | hd :: rest, rf, pn, h => by
    obtain ⟨tc, htc, htool⟩ := h
    rcases List.mem_cons.mp htc with rfl | hmem
    · cases tc with
      | deleteResource i args => exact ⟨pn ++ [deleteNote], rfl⟩
      | calendarSummary i args => simp [ToolCall.tool] at htool
      | calendarEvents i args => simp [ToolCall.tool] at htool
      | emailDraftGenerate i toAddrs prompt tone rb => simp [ToolCall.tool] at htool
      | emailSend i args => simp [ToolCall.tool] at htool
      | calendarEventCreate i args => simp [ToolCall.tool] at htool
    · cases hd with
      | deleteResource i args => exact ⟨pn ++ [deleteNote], rfl⟩
      | calendarSummary i args => exact judgePlanAux_delete rest rf pn ⟨tc, hmem, htool⟩
      | calendarEvents i args => exact judgePlanAux_delete rest rf pn ⟨tc, hmem, htool⟩
      | emailSend i args =>
        exact judgePlanAux_delete rest (rf ++ emailSendMissing args)
          (pn ++ [emailSendNote]) ⟨tc, hmem, htool⟩
      | calendarEventCreate i args =>
        exact judgePlanAux_delete rest (rf ++ calendarCreateMissing args)
          (pn ++ [calendarCreateNote]) ⟨tc, hmem, htool⟩
      | emailDraftGenerate i toAddrs prompt tone rb =>
        show ∃ pn2, (if toAddrs.length = 0 then
            judgePlanAux rest (rf ++ ["recipient"]) (pn ++ [draftRecipientNote])
          else judgePlanAux rest rf pn) = _
        split
        · exact judgePlanAux_delete rest (rf ++ ["recipient"])
            (pn ++ [draftRecipientNote]) ⟨tc, hmem, htool⟩
        · exact judgePlanAux_delete rest rf pn ⟨tc, hmem, htool⟩

/-- C2: every plan containing a `delete.resource` tool call is judged
`blocked` with `requiredFields = ['confirmDeleteTarget']` and
`requiresApproval = true`, regardless of the other tool calls. -/
theorem c2_delete_always_blocked (context : ContextPack) (plan : ExecutionPlan)
    (h : ∃ tc ∈ plan.toolCalls, tc.tool = "delete.resource") :
    (judgePlan context plan).status = .blocked ∧
    (judgePlan context plan).requiredFields = ["confirmDeleteTarget"] ∧
    (judgePlan context plan).requiresApproval = true := by
  obtain ⟨pn2, hpn⟩ := judgePlanAux_delete plan.toolCalls [] [] h
  simp [judgePlan, hpn]

theorem c2_delete_always_blocked_witness :
    (judgePlan sampleContext deleteMixedPlan).status = .blocked ∧
    (judgePlan sampleContext deleteMixedPlan).requiredFields = ["confirmDeleteTarget"] ∧
    (judgePlan sampleContext deleteMixedPlan).requiresApproval = true :=
  c2_delete_always_blocked sampleContext deleteMixedPlan
    ⟨ToolCall.deleteResource "t2" [], by simp [deleteMixedPlan], rfl⟩

/-- Without a `delete.resource` call the loop just accumulates each call's
missing fields and notes. -/
lemma judgePlanAux_no_delete : ∀ (l : List ToolCall) (rf pn : List String),
    (∀ tc ∈ l, tc.tool ≠ "delete.resource") →
    judgePlanAux l rf pn = Sum.inr (rf ++ l.bind toolMissing, pn ++ l.bind toolNotes)
  | [], rf, pn, _ => by simp [judgePlanAux]
  | hd :: rest, rf, pn, h => by
    have hrest : ∀ tc ∈ rest, tc.tool ≠ "delete.resource" :=
      fun tc htc => h tc (List.mem_cons_of_mem hd htc)
    cases hd with
    | deleteResource i args => exact absurd rfl (h _ (List.mem_cons_self _ _))
    | calendarSummary i args =>
      rw [show judgePlanAux (ToolCall.calendarSummary i args :: rest) rf pn =
          judgePlanAux rest rf pn from rfl,
        judgePlanAux_no_delete rest rf pn hrest]
      simp [toolMissing, toolNotes]
    | calendarEvents i args =>
      rw [show judgePlanAux (ToolCall.calendarEvents i args :: rest) rf pn =
          judgePlanAux rest rf pn from rfl,
        judgePlanAux_no_delete rest rf pn hrest]
      simp [toolMissing, toolNotes]
    | emailSend i args =>
      rw [show judgePlanAux (ToolCall.emailSend i args :: rest) rf pn =
          judgePlanAux rest (rf ++ emailSendMissing args) (pn ++ [emailSendNote]) from rfl,
        judgePlanAux_no_delete rest _ _ hrest]
      simp [toolMissing, toolNotes, List.append_assoc]
    | calendarEventCreate i args =>
      rw [show judgePlanAux (ToolCall.calendarEventCreate i args :: rest) rf pn =
          judgePlanAux rest (rf ++ calendarCreateMissing args) (pn ++ [calendarCreateNote])
          from rfl,
        judgePlanAux_no_delete rest _ _ hrest]
      simp [toolMissing, toolNotes, List.append_assoc]
    | emailDraftGenerate i toAddrs prompt tone rb =>
      by_cases hto : toAddrs.length = 0
      · rw [show judgePlanAux (ToolCall.emailDraftGenerate i toAddrs prompt tone rb :: rest)
            rf pn = if toAddrs.length = 0 then
              judgePlanAux rest (rf ++ ["recipient"]) (pn ++ [draftRecipientNote])
            else judgePlanAux rest rf pn from rfl,
          if_pos hto, judgePlanAux_no_delete rest _ _ hrest]
        simp [toolMissing, toolNotes, hto, List.append_assoc]
      · rw [show judgePlanAux (ToolCall.emailDraftGenerate i toAddrs prompt tone rb :: rest)
            rf pn = if toAddrs.length = 0 then
              judgePlanAux rest (rf ++ ["recipient"]) (pn ++ [draftRecipientNote])
            else judgePlanAux rest rf pn from rfl,
          if_neg hto, judgePlanAux_no_delete rest _ _ hrest]
        simp [toolMissing, toolNotes, hto]

/-- For delete-free plans the decision's required fields are exactly the
de-duplicated concatenation of each call's missing fields. -/
lemma judgePlan_no_delete_requiredFields (context : ContextPack) (plan : ExecutionPlan)
    (hnd : ∀ tc ∈ plan.toolCalls, tc.tool ≠ "delete.resource") :
    (judgePlan context plan).requiredFields =
      dedupFirst (plan.toolCalls.bind toolMissing) := by
  have hrw := judgePlanAux_no_delete plan.toolCalls [] [] hnd
  simp only [List.nil_append] at hrw
  unfold judgePlan
  rw [hrw]
  dsimp only
  by_cases hb : plan.toolCalls.bind toolMissing = []
  · rw [hb, if_neg (by simp)]
    split <;> rfl
  · have hlen : (plan.toolCalls.bind toolMissing).length > 0 :=
      List.length_pos.mpr hb
    rw [if_pos hlen]

lemma judgePlan_no_delete_needs_clarification (context : ContextPack)
    (plan : ExecutionPlan)
    (hnd : ∀ tc ∈ plan.toolCalls, tc.tool ≠ "delete.resource")
    (hne : plan.toolCalls.bind toolMissing ≠ []) :
    (judgePlan context plan).status = .needsClarification ∧
    (judgePlan context plan).requiresApproval = plan.toolCalls.any ToolCall.sideEffect := by
  have hrw := judgePlanAux_no_delete plan.toolCalls [] [] hnd
  simp only [List.nil_append] at hrw
  have hlen : (plan.toolCalls.bind toolMissing).length > 0 := List.length_pos.mpr hne
  unfold judgePlan
  rw [hrw]
  dsimp only
  rw [if_pos hlen]
  exact ⟨rfl, rfl⟩

/-- Under a delete-free plan, the requires-approval branch condition of the
source (membership of the tool name in APPROVAL_TOOLS) is the presence of an
email.send or calendar.event.create call. -/
lemma any_approval_iff (plan : ExecutionPlan)
    (hnd : ∀ tc ∈ plan.toolCalls, tc.tool ≠ "delete.resource") :
    (plan.toolCalls.any (fun t => t.tool ∈ APPROVAL_TOOLS) = true) ↔
    ∃ tc ∈ plan.toolCalls,
      tc.tool = "email.send" ∨ tc.tool = "calendar.event.create" := by
  simp only [List.any_eq_true, decide_eq_true_eq]
  constructor
  · rintro ⟨tc, hm, htool⟩
    refine ⟨tc, hm, ?_⟩
    simp only [APPROVAL_TOOLS, List.mem_cons, List.mem_singleton] at htool
    rcases htool with h | h | h
    · exact Or.inl h
    · exact Or.inr h
    · exact absurd h (by simpa using hnd tc hm)
  · rintro ⟨tc, hm, htool⟩
    refine ⟨tc, hm, ?_⟩
    simp only [APPROVAL_TOOLS, List.mem_cons, List.mem_singleton]
    rcases htool with h | h
    · exact Or.inl h
    · exact Or.inr (Or.inl h)

/-- C3 counterexample: a delete-free plan whose only tool call is a
side-effecting email.draft.generate with a recipient has no missing required
fields, so by the claim the decision should be requires_approval; the code
returns proceed, because the requires-approval branch tests tool names, not
the sideEffect flag. -/
theorem c3_counterexample :
    draftOnlyPlan.toolCalls.all (fun tc => tc.tool != "delete.resource") = true ∧
    draftOnlyPlan.toolCalls.bind toolMissing = [] ∧
    draftOnlyPlan.toolCalls.any ToolCall.sideEffect = true ∧
    (judgePlan sampleContext draftOnlyPlan).status = .proceed ∧
    (judgePlan sampleContext draftOnlyPlan).status ≠ .requiresApproval :=
  ⟨rfl, rfl, rfl, rfl, by decide⟩

/-- C3 (amended): for every delete-free plan — if any required fields are
missing the status is needs_clarification, with requiresApproval true exactly
when some tool call is side-effecting; otherwise, if some tool call is
email.send or calendar.event.create, the status is requires_approval; and
otherwise the status is proceed (in particular a plan whose only
side-effecting call is email.draft.generate with a recipient proceeds). -/
theorem c3_amended_precedence (context : ContextPack) (plan : ExecutionPlan)
    (hnd : ∀ tc ∈ plan.toolCalls, tc.tool ≠ "delete.resource") :
    (plan.toolCalls.bind toolMissing ≠ [] →
      (judgePlan context plan).status = .needsClarification ∧
      (judgePlan context plan).requiresApproval = plan.toolCalls.any ToolCall.sideEffect) ∧
    (plan.toolCalls.bind toolMissing = [] →
      (∃ tc ∈ plan.toolCalls,
        tc.tool = "email.send" ∨ tc.tool = "calendar.event.create") →
      (judgePlan context plan).status = .requiresApproval ∧
      (judgePlan context plan).requiresApproval = true) ∧
    (plan.toolCalls.bind toolMissing = [] →
      (¬ ∃ tc ∈ plan.toolCalls,
        tc.tool = "email.send" ∨ tc.tool = "calendar.event.create") →
      (judgePlan context plan).status = .proceed ∧
      (judgePlan context plan).requiresApproval = false) := by
  have hrw := judgePlanAux_no_delete plan.toolCalls [] [] hnd
  simp only [List.nil_append] at hrw
  refine ⟨fun hne => judgePlan_no_delete_needs_clarification context plan hnd hne, ?_, ?_⟩
  · intro hb hex
    have hany := (any_approval_iff plan hnd).mpr hex
    unfold judgePlan
    rw [hrw]
    dsimp only
    rw [hb, if_neg (by simp), if_pos hany]
    exact ⟨rfl, rfl⟩
  · intro hb hex
    have hany : ¬ (plan.toolCalls.any (fun t => t.tool ∈ APPROVAL_TOOLS) = true) :=
      fun h => hex ((any_approval_iff plan hnd).mp h)
    unfold judgePlan
    rw [hrw]
    dsimp only
    rw [hb, if_neg (by simp), if_neg hany]
    exact ⟨rfl, rfl⟩

theorem c3_amended_precedence_witness :
    (∀ tc ∈ emailMissingPlan.toolCalls, tc.tool ≠ "delete.resource") ∧
    emailMissingPlan.toolCalls.bind toolMissing ≠ [] ∧
    (judgePlan sampleContext emailMissingPlan).status = .needsClarification ∧
    (judgePlan sampleContext emailMissingPlan).requiresApproval =
      emailMissingPlan.toolCalls.any ToolCall.sideEffect := by
  have hnd : ∀ tc ∈ emailMissingPlan.toolCalls, tc.tool ≠ "delete.resource" := by
    intro tc htc
    simp only [emailMissingPlan, List.mem_singleton] at htc
    subst htc
    decide
  have h := (c3_amended_precedence sampleContext emailMissingPlan hnd).1 (by decide)
  exact ⟨hnd, by decide, h.1, h.2⟩

/-- C4 counterexample: a plan containing an email.send call whose body is
missing, together with a delete.resource call: the decision is blocked with
requiredFields ['confirmDeleteTarget'] — not needs_clarification, and the
missing field name 'body' does not appear — contradicting the claim for
plans that also contain a delete. -/
theorem c4_counterexample :
    ToolCall.emailSend "t1"
        [("to", Json.arr [Json.str "a@example.com"]), ("subject", Json.str "Hi")]
      ∈ deleteMixedPlan.toolCalls ∧
    emailSendMissing
        [("to", Json.arr [Json.str "a@example.com"]), ("subject", Json.str "Hi")]
      = ["body"] ∧
    (judgePlan sampleContext deleteMixedPlan).status = .blocked ∧
    (judgePlan sampleContext deleteMixedPlan).status ≠ .needsClarification ∧
    (judgePlan sampleContext deleteMixedPlan).requiredFields = ["confirmDeleteTarget"] :=
  ⟨List.mem_cons_self _ _, by decide, by decide, by decide, by decide⟩

/-- C4 (amended): for every delete-free plan containing an email.send tool
call, the Judge adds 'recipient' when the recipient list is empty, 'subject'
when the subject is blank and 'body' when the body is blank (that is the
definition of `emailSendMissing`); when any of them is missing the status is
needs_clarification, and the decision's requiredFields are exactly — without
duplicates, order-independent — the missing field names collected over the
whole plan. -/
theorem c4_amended_email_send_missing_fields (context : ContextPack)
    (plan : ExecutionPlan)
    (hnd : ∀ tc ∈ plan.toolCalls, tc.tool ≠ "delete.resource")
    (cid : String) (args : List (String × Json))
    (hmem : ToolCall.emailSend cid args ∈ plan.toolCalls) :
    (emailSendMissing args ≠ [] →
      (judgePlan context plan).status = .needsClarification) ∧
    (∀ f ∈ emailSendMissing args, f ∈ (judgePlan context plan).requiredFields) ∧
    (judgePlan context plan).requiredFields.Nodup ∧
    (∀ f, f ∈ (judgePlan context plan).requiredFields ↔
      f ∈ plan.toolCalls.bind toolMissing) := by
  have hrf := judgePlan_no_delete_requiredFields context plan hnd
  have hsub : ∀ f ∈ emailSendMissing args, f ∈ plan.toolCalls.bind toolMissing := by
    intro f hf
    exact List.mem_bind.mpr
      ⟨ToolCall.emailSend cid args, hmem, by simpa [toolMissing] using hf⟩
  refine ⟨?_, ?_, ?_, ?_⟩
  · intro hne
    have hbne : plan.toolCalls.bind toolMissing ≠ [] := by
      obtain ⟨f, hf⟩ := List.exists_mem_of_ne_nil _ hne
      exact List.ne_nil_of_mem (hsub f hf)
    exact (judgePlan_no_delete_needs_clarification context plan hnd hbne).1
  · intro f hf
    rw [hrf, mem_dedupFirst]
    exact hsub f hf
  · rw [hrf]
    exact nodup_dedupFirst _
  · intro f
    rw [hrf, mem_dedupFirst]

theorem c4_amended_email_send_missing_fields_witness :
    (judgePlan sampleContext emailMissingPlan).status = .needsClarification ∧
    "subject" ∈ (judgePlan sampleContext emailMissingPlan).requiredFields ∧
    "body" ∈ (judgePlan sampleContext emailMissingPlan).requiredFields ∧
    (judgePlan sampleContext emailMissingPlan).requiredFields.Nodup := by
  have hnd : ∀ tc ∈ emailMissingPlan.toolCalls, tc.tool ≠ "delete.resource" := by
    intro tc htc
    simp only [emailMissingPlan, List.mem_singleton] at htc
    subst htc
    decide
  have h := c4_amended_email_send_missing_fields sampleContext emailMissingPlan hnd
    "t1" [("to", Json.arr [Json.str "a@example.com"])]
    (by simp [emailMissingPlan])
  refine ⟨h.1 (by decide), ?_, ?_, h.2.2.1⟩
  · exact h.2.1 "subject" (by decide)
  · exact h.2.1 "body" (by decide)

/-- C7: the post-tool judge returns the pre-tool decision unchanged unless
that decision was proceed and some tool execution result has ok = false, in
which case it returns blocked with the (first) failing tool and its error in
the policy notes; the decision never moves in any other way. -/
theorem c7_post_tool_judge_escalation (initial : JudgeDecision)
    (rs : List ToolExecutionResult) :
    (initial.status ≠ .proceed → postToolJudge initial rs = initial) ∧
    ((∀ r ∈ rs, r.ok = true) → postToolJudge initial rs = initial) ∧
    (∀ f, initial.status = .proceed → rs.find? (fun r => !r.ok) = some f →
      postToolJudge initial rs =
        { status := .blocked
          requiredFields := []
          policyNotes := ["Tool execution failed: " ++ f.tool ++ " (" ++
            jsOrUnknownError f.error ++ ")"]
          requiresApproval := false } ∧ f ∈ rs ∧ f.ok = false) ∧
    (postToolJudge initial rs ≠ initial →
      initial.status = .proceed ∧ (postToolJudge initial rs).status = .blocked ∧
      ∃ r ∈ rs, r.ok = false) := by
  refine ⟨?_, ?_, ?_, ?_⟩
  · intro h
    simp [postToolJudge, h]
  · intro h
    have hfind : rs.find? (fun r => !r.ok) = none := by
      rw [List.find?_eq_none]
      intro r hr
      simp [h r hr]
    by_cases hst : initial.status = .proceed
    · simp [postToolJudge, hst, hfind]
    · simp [postToolJudge, hst]
  · intro f hst hfind
    refine ⟨?_, List.mem_of_find?_eq_some hfind, ?_⟩
    · simp [postToolJudge, hst, hfind]
    · have h2 := List.find?_some hfind
      simpa using h2
  · intro hne
    by_cases hst : initial.status = .proceed
    · cases hfind : rs.find? (fun r => !r.ok) with
      | none => exact absurd (by simp [postToolJudge, hst, hfind]) hne
      | some f =>
        have hok := List.find?_some hfind
        refine ⟨hst, ?_, f, List.mem_of_find?_eq_some hfind, by simpa using hok⟩
        simp [postToolJudge, hst, hfind]
    · exact absurd (by simp [postToolJudge, hst]) hne

theorem c7_post_tool_judge_escalation_witness :
    postToolJudge sampleProceedDecision [sampleFailedResult] =
      { status := .blocked
        requiredFields := []
        policyNotes := ["Tool execution failed: calendar.summary (boom)"]
        requiresApproval := false } ∧
    sampleFailedResult.ok = false := by
  have h := (c7_post_tool_judge_escalation sampleProceedDecision [sampleFailedResult]).2.2.1
    sampleFailedResult rfl rfl
  refine ⟨?_, h.2.2⟩
  rw [h.1]
  decide

/-! ## Executor lemmas and claims C5, C6, C9, C10 -/

lemma getAction_id (s : LedgerState) (actionId : String) (a : ApprovalAction)
    (h : getAction s actionId = some a) : a.id = actionId := by
  unfold getAction at h
  have h3 := List.find?_some h
  simpa using h3

lemma find?_map_replace : ∀ (l : List ApprovalAction) (actionId : String)
    (a upd : ApprovalAction),
    l.find? (fun x => x.id = actionId) = some a → upd.id = actionId →
    (l.map (fun x => if x.id = actionId then upd else x)).find?
      (fun x => x.id = actionId) = some upd
  | [], _, _, _, h, _ => by simp at h
  | x :: rest, actionId, a, upd, h, hid => by
    by_cases hx : x.id = actionId
    · simp only [List.map_cons, if_pos hx]
      exact List.find?_cons_of_pos _ (by simp [hid])
    · simp only [List.map_cons, if_neg hx]
      rw [List.find?_cons_of_neg _ (by simp [hx])]
      rw [List.find?_cons_of_neg _ (by simp [hx])] at h
      exact find?_map_replace rest actionId a upd h hid

lemma getAction_setAction (s : LedgerState) (actionId : String)
    (a upd : ApprovalAction)
    (hget : getAction s actionId = some a) (hid : upd.id = actionId) :
    getAction (setAction s actionId upd) actionId = some upd :=
  find?_map_replace s.actions actionId a upd hget hid

lemma getAction_appendAudit (s : LedgerState) (e : AuditEntry) (actionId : String) :
    getAction (appendAudit s e) actionId = getAction s actionId := rfl

/-- A successful transition along an allowed edge: the updated row and the
audit entry, spelled out. -/
lemma transitionAction_allowed_eq (s : LedgerState) (actionId : String)
    (a : ApprovalAction) (next : ApprovalStatus) (ab ed : Option String)
    (nowMs : Int)
    (hget : getAction s actionId = some a)
    (hterm : a.status ∉ TERMINAL)
    (hallow : (a.status = .prepared ∧
        next ∈ [ApprovalStatus.approved, .cancelled, .failed]) ∨
      (a.status = .approved ∧
        next ∈ [ApprovalStatus.executed, .failed, .cancelled])) :
    transitionAction s actionId next ab ed nowMs =
      (appendAudit (setAction s actionId
        { a with
          status := next
          approvedBy := nullish ab a.approvedBy
          errorDetails := ed
          updatedAt := nowMs })
        { actionType := "approval_transition"
          targetType := some a.targetType
          targetRef := some a.id
          status := statusText next
          errorDetails := ed },
       .ok { a with
         status := next
         approvedBy := nullish ab a.approvedBy
         errorDetails := ed
         updatedAt := nowMs }) := by
  unfold transitionAction
  rw [hget]
  dsimp only
  rw [if_neg hterm, if_pos hallow]

/-- When the gate finds issues on an approved action, the executor writes the
blocked audit entry and throws, leaving the action rows untouched. -/
lemma executeApprovedAction_blocked (s : LedgerState) (actionId : String)
    (a : ApprovalAction) (ab : Option String) (nowMs : Int)
    (hget : getAction s actionId = some a)
    (hst : a.status = .approved)
    (hne : validateApprovedActionExecution (some a) nowMs ≠ []) :
    executeApprovedAction s actionId ab nowMs =
      (appendAudit s
        { actionType := "action_execute_blocked"
          targetType := some a.targetType
          targetRef := some a.id
          status := "blocked"
          errorDetails := none },
       .error ("execution_policy_blocked:" ++
         joinComma (validateApprovedActionExecution (some a) nowMs))) := by
  have hlen : (validateApprovedActionExecution (some a) nowMs).length > 0 :=
    List.length_pos.mpr hne
  unfold executeApprovedAction
  rw [hget]
  dsimp only
  rw [if_neg (by simp [hst]), if_pos hlen]

lemma combineDateTimeUtc_ok_ne_empty (d t r : String)
    (h : combineDateTimeUtc d t = .ok r) : d ≠ "" ∧ t ≠ "" := by
  constructor
  · rintro rfl
    unfold combineDateTimeUtc at h
    rw [show parseIsoDate "" = none from rfl] at h
    simp at h
  · rintro rfl
    unfold combineDateTimeUtc at h
    rw [show String.toList "" = [] from rfl] at h
    cases hp : parseIsoDate d <;> rw [hp] at h <;> simp at h

/-- When the gate passes and the guarded operation itself succeeds, the
executor performs it, transitions the action to executed, and audits. -/
lemma executeApprovedAction_success (s : LedgerState) (actionId : String)
    (a : ApprovalAction) (ab : Option String) (nowMs : Int)
    (hget : getAction s actionId = some a)
    (hst : a.status = .approved)
    (hvalid : validateApprovedActionExecution (some a) nowMs = [])
    (hstep : executionStepSucceeds a) :
    ∃ s2 upd ed,
      executeApprovedAction s actionId ab nowMs = (s2, .ok (upd, ed)) ∧
      upd.status = .executed ∧ upd.id = a.id ∧ upd.payload = a.payload ∧
      getAction s2 actionId = some upd := by
  have hid : a.id = actionId := getAction_id s actionId a hget
  have hnlen : ¬ ((validateApprovedActionExecution (some a) nowMs).length > 0) := by
    simp [hvalid]
  set upd : ApprovalAction :=
    { a with
      status := ApprovalStatus.executed
      approvedBy := nullish (jsOrElse ab (jsOrElse a.approvedBy (some "local-user")))
        a.approvedBy
      errorDetails := none
      updatedAt := nowMs } with hupd
  have hgetS : ∀ s3 : LedgerState, s3.actions = s.actions →
      getAction s3 a.id = some a := by
    intro s3 hs3
    show s3.actions.find? (fun x => x.id = a.id) = some a
    rw [hs3, hid]
    exact hget
  have htrans : ∀ s3 : LedgerState, getAction s3 a.id = some a →
      transitionAction s3 a.id .executed
        (jsOrElse ab (jsOrElse a.approvedBy (some "local-user"))) none nowMs =
      (appendAudit (setAction s3 a.id upd)
        { actionType := "approval_transition"
          targetType := some a.targetType
          targetRef := some a.id
          status := statusText .executed
          errorDetails := none },
       .ok upd) := by
    intro s3 hg3
    exact transitionAction_allowed_eq s3 a.id a .executed _ none nowMs hg3
      (by simp [hst, TERMINAL]) (Or.inr ⟨hst, by simp⟩)
  have hgetfinal : ∀ (s3 : LedgerState) (e1 e2 : AuditEntry),
      getAction s3 a.id = some a →
      getAction (appendAudit (appendAudit (setAction s3 a.id upd) e1) e2) actionId
        = some upd := by
    intro s3 e1 e2 hg3
    rw [getAction_appendAudit, getAction_appendAudit, ← hid]
    exact getAction_setAction s3 a.id a upd hg3 rfl
  unfold executeApprovedAction
  rw [hget]
  dsimp only
  rw [if_neg (by simp [hst]), if_neg hnlen]
  rcases hstep with hmail | ⟨hcal, sAt, eAt, hsAt, heAt, hlt⟩
  · -- email.send: the spec-modelled materialization succeeds
    have hnotcal : ¬ (a.actionType = "calendar.event.create") := by
      rw [hmail]
      decide
    rw [if_neg hnotcal, if_pos hmail]
    unfold materializeApprovedSendActionAsLocalDraft
    dsimp only
    rw [htrans (appendAudit s
      { actionType := "action_execute_begin"
        targetType := some a.targetType
        targetRef := some a.id
        status := "prepared"
        errorDetails := none }) (hgetS _ rfl)]
    dsimp only
    exact ⟨_, upd, .localDraft ("draft_for_" ++ a.id), rfl, rfl, rfl, rfl,
      hgetfinal _ _ _ (hgetS _ rfl)⟩
  · -- calendar.event.create with valid, ordered datetimes
    rw [if_pos hcal]
    unfold createLocalCalendarEventFromApprovedAction
    dsimp only
    have hne1 := combineDateTimeUtc_ok_ne_empty _ _ _ hsAt
    have hne2 := combineDateTimeUtc_ok_ne_empty _ _ _ heAt
    rw [if_neg (by simp [hne1.1, hne1.2, hne2.2]), hsAt, heAt]
    dsimp only
    rw [if_pos hlt]
    dsimp only
    rw [htrans (appendAudit (appendAudit s
      { actionType := "action_execute_begin"
        targetType := some a.targetType
        targetRef := some a.id
        status := "prepared"
        errorDetails := none })
      { actionType := "calendar_event_created_from_action"
        targetType := some "calendar_event"
        targetRef := none
        status := "executed"
        errorDetails := none }) (hgetS _ rfl)]
    dsimp only
    exact ⟨_, upd, _, rfl, rfl, rfl, rfl, hgetfinal _ _ _ (hgetS _ rfl)⟩

/-- C6: when the execution safety gate's checks fail on an approved action
(staleness or payload completeness), executeApprovedAction aborts with
`execution_policy_blocked:` followed by the comma-joined issue codes, writes
a blocked audit entry, and leaves the rows — hence the approved status —
unchanged, so execution can be retried. -/
theorem c6_policy_block_keeps_action_approved (s : LedgerState) (actionId : String)
    (a : ApprovalAction) (ab : Option String) (nowMs : Int)
    (hget : getAction s actionId = some a)
    (hst : a.status = .approved)
    (hne : validateApprovedActionExecution (some a) nowMs ≠ []) :
    (executeApprovedAction s actionId ab nowMs).2 =
      .error ("execution_policy_blocked:" ++
        joinComma (validateApprovedActionExecution (some a) nowMs)) ∧
    (executeApprovedAction s actionId ab nowMs).1.actions = s.actions ∧
    (executeApprovedAction s actionId ab nowMs).1.audit = s.audit ++
      [{ actionType := "action_execute_blocked"
         targetType := some a.targetType
         targetRef := some a.id
         status := "blocked"
         errorDetails := none }] ∧
    getAction (executeApprovedAction s actionId ab nowMs).1 actionId = some a ∧
    a.status = .approved := by
  have hmain := executeApprovedAction_blocked s actionId a ab nowMs hget hst hne
  rw [hmain]
  exact ⟨rfl, rfl, rfl, hget, hst⟩

theorem c6_policy_block_keeps_action_approved_witness :
    validateApprovedActionExecution (some staleApprovedEmailAction) eightDaysMs =
      ["approval_stale_reapproval_required"] ∧
    (executeApprovedAction staleApprovedState "act2" none eightDaysMs).2 =
      .error "execution_policy_blocked:approval_stale_reapproval_required" ∧
    (executeApprovedAction staleApprovedState "act2" none eightDaysMs).1.actions =
      staleApprovedState.actions := by
  have h := c6_policy_block_keeps_action_approved staleApprovedState "act2"
    staleApprovedEmailAction none eightDaysMs rfl rfl (by decide)
  refine ⟨by decide, ?_, h.2.1⟩
  rw [h.1]
  exact congrArg Except.error (by decide)

/-- C5 counterexample: an approved calendar.event.create action whose payload
passes the completeness check but has its end time before its start time.
It is stale, is rejected with the stale issue code, and can be reaffirmed —
but then execution still fails (calendar_event_end_before_start), although
the payload passes the payload completeness check, refuting the final clause
of the claim. -/
theorem c5_counterexample :
    payloadIssues "calendar.event.create" staleCalendarPayload = [] ∧
    (executeApprovedAction staleCalendarState "act3" none eightDaysMs).2 =
      .error "execution_policy_blocked:approval_stale_reapproval_required" ∧
    (reaffirmAction staleCalendarState "act3" none eightDaysMs).2 =
      .ok { staleApprovedCalendarAction with updatedAt := eightDaysMs } ∧
    validateApprovedActionExecution
      (some { staleApprovedCalendarAction with updatedAt := eightDaysMs })
      eightDaysMs = [] ∧
    (executeApprovedAction (reaffirmAction staleCalendarState "act3" none
        eightDaysMs).1 "act3" none eightDaysMs).2 =
      .error "calendar_event_end_before_start" := by
  refine ⟨by decide, ?_, rfl, by decide, rfl⟩
  have h := executeApprovedAction_blocked staleCalendarState "act3"
    staleApprovedCalendarAction none eightDaysMs rfl rfl (by decide)
  rw [h]
  exact congrArg Except.error (by decide)

/-- C5 (amended): a stale approved action is rejected by the execution gate
with the approval_stale_reapproval_required issue code and its rows stay
unchanged (still approved); reaffirm — valid only from approved — re-stamps
updatedAt and the approver without changing the status; and executing right
after the reaffirm succeeds provided the payload passes the payload
completeness check AND the guarded operation itself can run (the actionType
is executable: email.send, or calendar.event.create whose payload datetimes
are valid with the end after the start). -/
theorem c5_amended_stale_then_reaffirm (s : LedgerState) (actionId : String)
    (a : ApprovalAction) (ab ab2 : Option String) (t0 t1 : Int)
    (hget : getAction s actionId = some a)
    (hst : a.status = .approved)
    (hstale : t0 - a.updatedAt > STALE_LIMIT_MS) :
    ("approval_stale_reapproval_required" ∈
        validateApprovedActionExecution (some a) t0 ∧
      (∃ issues, (executeApprovedAction s actionId ab t0).2 =
          .error ("execution_policy_blocked:" ++ joinComma issues) ∧
        "approval_stale_reapproval_required" ∈ issues) ∧
      (executeApprovedAction s actionId ab t0).1.actions = s.actions) ∧
    (∀ s1 a1, reaffirmAction s actionId ab2 t1 = (s1, .ok a1) →
      a1.status = .approved ∧ a1.updatedAt = t1 ∧ a1.payload = a.payload ∧
      a1.actionType = a.actionType ∧ a1.id = a.id ∧
      getAction s1 actionId = some a1 ∧
      (payloadIssues a.actionType a.payload = [] →
        executionStepSucceeds a →
        ∃ s2 upd ed,
          executeApprovedAction s1 actionId ab t1 = (s2, .ok (upd, ed)) ∧
          upd.status = .executed ∧ getAction s2 actionId = some upd)) := by
  have hid : a.id = actionId := getAction_id s actionId a hget
  have hmem : "approval_stale_reapproval_required" ∈
      validateApprovedActionExecution (some a) t0 := by
    unfold validateApprovedActionExecution
    dsimp only
    rw [if_pos hstale]
    exact List.mem_append_left _ (List.mem_cons_self _ _)
  have hne : validateApprovedActionExecution (some a) t0 ≠ [] :=
    List.ne_nil_of_mem hmem
  have hblocked := executeApprovedAction_blocked s actionId a ab t0 hget hst hne
  refine ⟨⟨hmem, ⟨validateApprovedActionExecution (some a) t0,
    by rw [hblocked], hmem⟩, ?_⟩, ?_⟩
  · rw [hblocked]
    rfl
  intro s1 a1 hre
  have hre2 : reaffirmAction s actionId ab2 t1 =
      (appendAudit (setAction s actionId
        { a with
          approvedBy := nullish ab2 a.approvedBy
          updatedAt := t1 })
        { actionType := "approval_reaffirmed"
          targetType := some a.targetType
          targetRef := some a.id
          status := statusText a.status
          errorDetails := none },
       .ok { a with
         approvedBy := nullish ab2 a.approvedBy
         updatedAt := t1 }) := by
    unfold reaffirmAction
    rw [hget]
    dsimp only
    rw [if_neg (by simp [hst])]
  rw [hre2] at hre
  have hs1 : s1 = appendAudit (setAction s actionId
      { a with
        approvedBy := nullish ab2 a.approvedBy
        updatedAt := t1 })
      { actionType := "approval_reaffirmed"
        targetType := some a.targetType
        targetRef := some a.id
        status := statusText a.status
        errorDetails := none } := (Prod.mk.injEq _ _ _ _ ▸ hre).1.symm
  have ha1 : a1 = { a with
      approvedBy := nullish ab2 a.approvedBy
      updatedAt := t1 } := by
    have h2 := (Prod.mk.injEq _ _ _ _ ▸ hre).2
    exact (Except.ok.injEq _ _ ▸ h2).symm
  subst hs1
  subst ha1
  have hget1 : getAction (appendAudit (setAction s actionId
      { a with
        approvedBy := nullish ab2 a.approvedBy
        updatedAt := t1 })
      { actionType := "approval_reaffirmed"
        targetType := some a.targetType
        targetRef := some a.id
        status := statusText a.status
        errorDetails := none }) actionId = some
      { a with
        approvedBy := nullish ab2 a.approvedBy
        updatedAt := t1 } := by
    rw [getAction_appendAudit]
    exact getAction_setAction s actionId a _ hget hid
  refine ⟨hst, rfl, rfl, rfl, rfl, hget1, ?_⟩
  intro hpay hstep
  have hvalid : validateApprovedActionExecution (some
      { a with
        approvedBy := nullish ab2 a.approvedBy
        updatedAt := t1 }) t1 = [] := by
    unfold validateApprovedActionExecution
    dsimp only
    rw [if_neg (by simp [STALE_LIMIT_MS])]
    simpa using hpay
  have hstep1 : executionStepSucceeds
      { a with
        approvedBy := nullish ab2 a.approvedBy
        updatedAt := t1 } := hstep
  obtain ⟨s2, upd, ed, hexe, hust, huid, hupay, hug⟩ :=
    executeApprovedAction_success _ actionId _ ab t1 hget1 hst hvalid hstep1
  exact ⟨s2, upd, ed, hexe, hust, hug⟩

theorem c5_amended_stale_then_reaffirm_witness :
    "approval_stale_reapproval_required" ∈
      validateApprovedActionExecution (some staleApprovedEmailAction) eightDaysMs ∧
    ∃ s2 upd ed,
      executeApprovedAction
        (reaffirmAction staleApprovedState "act2" none eightDaysMs).1
        "act2" none eightDaysMs = (s2, .ok (upd, ed)) ∧
      upd.status = .executed := by
  have h := c5_amended_stale_then_reaffirm staleApprovedState "act2"
    staleApprovedEmailAction none none eightDaysMs eightDaysMs rfl rfl (by decide)
  have h2 := h.2 (reaffirmAction staleApprovedState "act2" none eightDaysMs).1
    { staleApprovedEmailAction with updatedAt := eightDaysMs } rfl
  obtain ⟨s2, upd, ed, hexe, hust, _⟩ :=
    h2.2.2.2.2.2.2 (by decide) (Or.inl rfl)
  exact ⟨h.1.1, s2, upd, ed, hexe, hust⟩

/-- C9: on a prepared (not yet approved) action, a transition request to
executed through the actions route dispatches to executeApprovedAction, which
fails with action_not_approved — not with invalid_transition:prepared->executed
— and leaves the rows (hence the prepared status) unchanged. -/
theorem c9_route_executed_on_prepared (s : LedgerState) (actionId : String)
    (a : ApprovalAction) (ab ed : Option String) (nowMs : Int)
    (hget : getAction s actionId = some a)
    (hst : a.status = .prepared) :
    handleTransitionRoute s actionId .executed ab ed nowMs =
      (s, .error "action_not_approved") ∧
    "action_not_approved" ≠ "invalid_transition:prepared->executed" ∧
    getAction (handleTransitionRoute s actionId .executed ab ed nowMs).1 actionId
      = some a ∧
    a.status = .prepared := by
  have hexec : executeApprovedAction s actionId ab nowMs =
      (s, .error "action_not_approved") := by
    unfold executeApprovedAction
    rw [hget]
    dsimp only
    rw [if_pos (by simp [hst])]
  have hmain : handleTransitionRoute s actionId .executed ab ed nowMs =
      (s, .error "action_not_approved") := by
    unfold handleTransitionRoute
    rw [if_neg (by decide), if_pos rfl, hexec]
  refine ⟨hmain, by decide, ?_, hst⟩
  rw [hmain]
  exact hget

theorem c9_route_executed_on_prepared_witness :
    handleTransitionRoute preparedState "act4" .executed none none 0 =
      (preparedState, .error "action_not_approved") ∧
    preparedEmailAction.status = .prepared :=
  ⟨(c9_route_executed_on_prepared preparedState "act4" preparedEmailAction
      none none 0 rfl rfl).1, rfl⟩

/-- A freshly prepared action is retrievable by its id when the id is new. -/
lemma prepareAction_getAction (s : LedgerState) (newId actionType targetType : String)
    (targetRef : Option String) (payload : List (String × Json))
    (requestedBy : String) (nowMs : Int)
    (hfresh : s.actions.find? (fun x => x.id = newId) = none) :
    getAction (prepareAction s newId actionType targetType targetRef payload
      requestedBy nowMs).1 newId =
    some (prepareAction s newId actionType targetType targetRef payload
      requestedBy nowMs).2 := by
  unfold prepareAction
  dsimp only
  rw [getAction_appendAudit]
  unfold getAction
  dsimp only
  rw [List.find?_append, hfresh]
  simp

/-- C10: every ApprovalAction prepared by the draft-generation path
(`createDraftEmail`) is an email.send action whose payload holds only subject
and to — no body field; consequently, once such an action is approved,
executeApprovedAction always fails the payload completeness check with an
execution_policy_blocked error whose issue codes include email_body_missing,
and the action never reaches executed through that path. -/
theorem c10_draft_approval_never_executes (newId draftId subject reqBy : String)
    (toAddrs : List String) (ab ab2 : Option String) (t0 t1 t2 : Int) :
    lookupField (draftEmailApprovalPayload subject toAddrs) "body" = none ∧
    (createDraftEmailApproval ⟨[], []⟩ newId draftId subject toAddrs reqBy t0).2.actionType
      = "email.send" ∧
    (createDraftEmailApproval ⟨[], []⟩ newId draftId subject toAddrs reqBy t0).2.payload
      = draftEmailApprovalPayload subject toAddrs ∧
    (createDraftEmailApproval ⟨[], []⟩ newId draftId subject toAddrs reqBy t0).2.status
      = .prepared ∧
    ∃ a1,
      (transitionAction (createDraftEmailApproval ⟨[], []⟩ newId draftId subject
          toAddrs reqBy t0).1 newId .approved ab none t1).2 = .ok a1 ∧
      a1.status = .approved ∧
      (∃ issues,
        (executeApprovedAction (transitionAction (createDraftEmailApproval ⟨[], []⟩
            newId draftId subject toAddrs reqBy t0).1 newId .approved ab none t1).1
            newId ab2 t2).2 =
          .error ("execution_policy_blocked:" ++ joinComma issues) ∧
        "email_body_missing" ∈ issues) ∧
      getAction (executeApprovedAction (transitionAction (createDraftEmailApproval
          ⟨[], []⟩ newId draftId subject toAddrs reqBy t0).1 newId .approved ab
          none t1).1 newId ab2 t2).1 newId = some a1 := by
  have hget0 : getAction (createDraftEmailApproval ⟨[], []⟩ newId draftId subject
      toAddrs reqBy t0).1 newId =
      some (createDraftEmailApproval ⟨[], []⟩ newId draftId subject toAddrs
        reqBy t0).2 :=
    prepareAction_getAction ⟨[], []⟩ newId "email.send" "draft_email"
      (some draftId) (draftEmailApprovalPayload subject toAddrs) reqBy t0 rfl
  have htrans := transitionAction_allowed_eq _ newId
    (createDraftEmailApproval ⟨[], []⟩ newId draftId subject toAddrs reqBy t0).2
    .approved ab none t1 hget0
    (by rw [show (createDraftEmailApproval ⟨[], []⟩ newId draftId subject toAddrs
        reqBy t0).2.status = ApprovalStatus.prepared from rfl]; decide)
    (Or.inl ⟨rfl, by decide⟩)
  refine ⟨rfl, rfl, rfl, rfl, ?_⟩
  rw [htrans]
  dsimp only
  set a1 : ApprovalAction :=
    { (createDraftEmailApproval ⟨[], []⟩ newId draftId subject toAddrs reqBy t0).2 with
      status := ApprovalStatus.approved
      approvedBy := nullish ab
        (createDraftEmailApproval ⟨[], []⟩ newId draftId subject toAddrs reqBy t0).2.approvedBy
      errorDetails := none
      updatedAt := t1 } with ha1
  have hget1 : getAction (appendAudit (setAction (createDraftEmailApproval ⟨[], []⟩
      newId draftId subject toAddrs reqBy t0).1 newId a1)
      { actionType := "approval_transition"
        targetType := some (createDraftEmailApproval ⟨[], []⟩ newId draftId subject
          toAddrs reqBy t0).2.targetType
        targetRef := some (createDraftEmailApproval ⟨[], []⟩ newId draftId subject
          toAddrs reqBy t0).2.id
        status := statusText .approved
        errorDetails := none }) newId = some a1 := by
    rw [getAction_appendAudit]
    exact getAction_setAction _ newId _ a1 hget0 rfl
  have hbody : "email_body_missing" ∈
      payloadIssues "email.send" (draftEmailApprovalPayload subject toAddrs) := by
    have h0 : payloadStrTrim (draftEmailApprovalPayload subject toAddrs) "body" = "" := rfl
    unfold payloadIssues
    rw [if_pos rfl,
      if_neg (show ¬ (("email.send" : String) = "calendar.event.create") from by decide)]
    simp [h0]
  have hmemv : "email_body_missing" ∈
      validateApprovedActionExecution (some a1) t2 := by
    unfold validateApprovedActionExecution
    dsimp only
    exact List.mem_append_right _ hbody
  have hne : validateApprovedActionExecution (some a1) t2 ≠ [] :=
    List.ne_nil_of_mem hmemv
  have hblocked := executeApprovedAction_blocked _ newId a1 ab2 t2 hget1 rfl hne
  refine ⟨a1, rfl, rfl, ⟨validateApprovedActionExecution (some a1) t2,
    by rw [hblocked], hmemv⟩, ?_⟩
  rw [hblocked]
  exact hget1

theorem c10_draft_approval_never_executes_witness :
    lookupField (draftEmailApprovalPayload "Re: hello" ["a@example.com"]) "body"
      = none ∧
    ∃ a1,
      (transitionAction (createDraftEmailApproval ⟨[], []⟩ "act9" "draft9"
          "Re: hello" ["a@example.com"] "local-user" 0).1 "act9" .approved none
          none 1).2 = .ok a1 ∧
      (∃ issues,
        (executeApprovedAction (transitionAction (createDraftEmailApproval ⟨[], []⟩
            "act9" "draft9" "Re: hello" ["a@example.com"] "local-user" 0).1 "act9"
            .approved none none 1).1 "act9" none 2).2 =
          .error ("execution_policy_blocked:" ++ joinComma issues) ∧
        "email_body_missing" ∈ issues) := by
  have h := c10_draft_approval_never_executes "act9" "draft9" "Re: hello"
    "local-user" ["a@example.com"] none none 0 1 2
  obtain ⟨hb, _, _, _, a1, ht, _, hex, _⟩ := h
  exact ⟨hb, a1, ht, hex⟩

/-- C8: on the input "Send email to alice@example.com subject: Launch update
body: Please review." the reader classifies the intent as email_send, the
heuristic planner produces exactly one email.send tool call with
to=["alice@example.com"], subject="Launch update", body="Please review.",
and the pre-tool Judge decision on that plan is requires_approval. -/
theorem c8_email_send_scenario :
    (buildContextPack scenarioInput).intentGuess = "email_send" ∧
    (planFromContext (buildContextPack scenarioInput)).toolCalls =
      [ToolCall.emailSend freshToolId
        [("to", Json.arr [Json.str "alice@example.com"]),
         ("subject", Json.str "Launch update"),
         ("body", Json.str "Please review."),
         ("requestedBy", Json.str "local-user"),
         ("source", Json.str "chat")]] ∧
    (judgePlan (buildContextPack scenarioInput)
      (planFromContext (buildContextPack scenarioInput))).status =
      .requiresApproval ∧
    (judgePlan (buildContextPack scenarioInput)
      (planFromContext (buildContextPack scenarioInput))).requiredFields = [] := by
  refine ⟨rfl, by rfl, by rfl, by rfl⟩

end OCW
